import Mathlib

/-!
# Connection registry of the management node (`mnodeProfile.c`)

A shallow embedding of the connection-tracking code of `src/mnode/src/mnodeProfile.c`:
admission (`mnodeCreateConn`), renewal (`mnodeCheckConn`), the kill request
(`mnodeProcessKillConnectionMsg`), the schema description (`mnodeGetConnsMeta`) and the paged
enumeration (`mnodeGetNextConn`, `mnodeRetrieveConns`).

The module-level variables `tsMnodeConnCache`, `tsConnIndex` and the thread-local `terrno`
become the fields of an explicit state record which every operation takes and returns.
Readings of the clock (`taosGetTimestampMs`) are passed in as the argument `now`.
Unsigned 32-bit and 64-bit arithmetic is `Nat` arithmetic reduced modulo `2 ^ 32`, `2 ^ 64`.
-/

namespace MnodeProfile

/-! ## Data model -/

/-- Modelled from the spec: the error codes this module returns (`TooManyConnections`,
`NoRights`, `InvalidConnection`, success).  Their numeric values are declared in
`taoserror.h`, which is not among the sources, so they are kept symbolic. -/
inductive TsdbCode where
  | TSDB_CODE_SUCCESS
  | TSDB_CODE_NO_RIGHTS
  | TSDB_CODE_INVALID_CONNECTION
  | TSDB_CODE_TOO_MANY_SHELL_CONNS
  deriving DecidableEq, Repr

/-- The record `SConnObj` kept for every connection. -/
structure SConnObj where
  user : String
  killed : Int
  port : Nat
  ip : Nat
  connId : Nat
  stime : Nat
  deriving DecidableEq, Repr

/-- Modelled from the spec: one entry of the TTL cache (`tcache.h` is not among the sources).
An entry carries its key, the stored value, its expiry time in milliseconds and the number of
handles currently acquired on it. -/
structure SCacheDataNode where
  key : String
  data : SConnObj
  expiredTime : Nat
  refCount : Nat
  deriving DecidableEq, Repr

/-- Modelled from the spec: the TTL cache behind `tsMnodeConnCache`, a keyed store.  The list
order stands for the iteration order of the underlying hash table. -/
abbrev SCacheObj := List SCacheDataNode

/-- The configuration variables `tsMaxShellConns` and `tsShellActivityTimer` (seconds), which
are declared in `tglobal.h`. -/
structure Globals where
  tsMaxShellConns : Int
  tsShellActivityTimer : Nat
  deriving DecidableEq, Repr

/-- The mutable module state: `tsMnodeConnCache`, `tsConnIndex` and `terrno`. -/
structure MnodeState where
  tsMnodeConnCache : SCacheObj
  tsConnIndex : Nat
  terrno : TsdbCode
  deriving DecidableEq, Repr

/-- The macro `CONN_KEEP_TIME`, `tsShellActivityTimer * 3`. -/
def CONN_KEEP_TIME (g : Globals) : Nat := g.tsShellActivityTimer * 3

/-- The macro `CONN_CHECK_TIME`, `tsShellActivityTimer * 2`. -/
def CONN_CHECK_TIME (g : Globals) : Nat := g.tsShellActivityTimer * 2

/-! ## The cache primitives -/

/-- Apply `f` to the entry stored under `key` (the first one in iteration order), if any. -/
def updateNode (f : SCacheDataNode → SCacheDataNode) (key : String) :
    SCacheObj → SCacheObj
  | [] => []
  | n :: rest => if n.key = key then f n :: rest else n :: updateNode f key rest

/-- The entry stored under `key`, if any. -/
def taosHashGet (c : SCacheObj) (key : String) : Option SCacheDataNode :=
  c.find? (fun n => decide (n.key = key))

/-- Modelled from the spec: `Size() -> int`, the current number of entries
(`taosHashGetSize` on the cache's hash table). -/
def taosHashGetSize (c : SCacheObj) : Int := (c.length : Int)

/-- Modelled from the spec: `Put(key, value, ttl) -> handle`.  The entry expires `ttl` seconds
after `now` (expiry times are in milliseconds); the returned handle counts as one reference.
A value put under a key that is already present replaces the stored entry. -/
def taosCachePut (c : SCacheObj) (key : String) (data : SConnObj) (duration now : Nat) :
    SCacheObj :=
  let node : SCacheDataNode :=
    { key := key, data := data, expiredTime := now + duration * 1000, refCount := 1 }
  match taosHashGet c key with
  | some _ => updateNode (fun _ => node) key c
  | none => c ++ [node]

/-- Modelled from the spec: `Release(handle)` decrements the reference count of the entry the
handle points to; the handle is identified by the entry's key. -/
def taosCacheRelease (c : SCacheObj) (key : String) : SCacheObj :=
  updateNode (fun n => { n with refCount := n.refCount - 1 }) key c

/-- Modelled from the spec: `AcquireByKey(key) -> handle | nil`, which increments the
reference count of the entry found. -/
def taosCacheAcquireByName (c : SCacheObj) (key : String) : Option SConnObj × SCacheObj :=
  match taosHashGet c key with
  | none => (none, c)
  | some n => (some n.data, updateNode (fun m => { m with refCount := m.refCount + 1 }) key c)

/-- Modelled from the spec: `UpdateExpiryByKey(key, newExpiry) -> handle | nil`, which sets
the expiry of the entry found and hands out a reference to it. -/
def taosCacheUpdateExpireTimeByName (c : SCacheObj) (key : String) (expireTime : Nat) :
    Option SConnObj × SCacheObj :=
  match taosHashGet c key with
  | none => (none, c)
  | some n =>
    (some n.data,
      updateNode (fun m => { m with expiredTime := expireTime, refCount := m.refCount + 1 })
        key c)

/-- Modelled from the spec: one run of the background reaper at time `now`; it evicts the
entries whose expiry has elapsed and on which no reference is outstanding. -/
def taosCacheRefresh (c : SCacheObj) (now : Nat) : SCacheObj :=
  c.filter (fun n => !(decide (n.expiredTime ≤ now) && decide (n.refCount = 0)))

/-! ## Admission, renewal and kill -/

/-- The call `atomic_add_fetch_32(&v, d)`: the new value of the 32-bit variable, which is
also the value returned. -/
def atomic_add_fetch_32 (v d : Nat) : Nat := (v + d) % 2 ^ 32

/-- The key text produced by `sprintf(key, "%u", connId)`: the decimal digits of the number.
The capacity of the destination buffer is not part of this function. -/
def sprintf_u (n : Nat) : String := Nat.repr n

/-- The function `mnodeCreateConn`; the result is the returned id and the new state. -/
def mnodeCreateConn (g : Globals) (now : Nat) (user : String) (ip port : Nat)
    (s : MnodeState) : Nat × MnodeState :=
  let connSize : Int := taosHashGetSize s.tsMnodeConnCache
  if connSize > g.tsMaxShellConns then
    (0, { s with terrno := TsdbCode.TSDB_CODE_TOO_MANY_SHELL_CONNS })
  else
    let connId := atomic_add_fetch_32 s.tsConnIndex 1
    let idx1 := connId
    -- `if (connId == 0) atomic_add_fetch_32(&tsConnIndex, 1);` the result is dropped
    let idx2 := if connId = 0 then atomic_add_fetch_32 idx1 1 else idx1
    let connObj : SConnObj :=
      { user := user, killed := 0, port := port, ip := ip, connId := connId, stime := now }
    let key := sprintf_u connId
    let c1 := taosCachePut s.tsMnodeConnCache key connObj (CONN_KEEP_TIME g) now
    let c2 := taosCacheRelease c1 key
    (connId, { s with tsMnodeConnCache := c2, tsConnIndex := idx2 })

/-- The function `mnodeCheckConn`; the result is the returned flag and the new state. -/
def mnodeCheckConn (g : Globals) (now : Nat) (connId : Nat) (user : String) (ip port : Nat)
    (s : MnodeState) : Bool × MnodeState :=
  let _ := user
  let key := sprintf_u connId
  let expireTime := (CONN_KEEP_TIME g * 1000 + now) % 2 ^ 64
  match taosCacheUpdateExpireTimeByName s.tsMnodeConnCache key expireTime with
  | (none, _) => (false, s)
  | (some pConn, c1) =>
    if pConn.ip ≠ ip ∨ pConn.port ≠ port then
      (false, { s with tsMnodeConnCache := taosCacheRelease c1 key })
    else
      (true, { s with tsMnodeConnCache := taosCacheRelease c1 key })

/-- The function `mnodeProcessKillConnectionMsg`; `user` is `pMsg->pUser->user` and `queryId`
is the key text `pKill->queryId` of the request. -/
def mnodeProcessKillConnectionMsg (user queryId : String) (s : MnodeState) :
    TsdbCode × MnodeState :=
  if user ≠ "root" then (TsdbCode.TSDB_CODE_NO_RIGHTS, s)
  else
    match taosCacheAcquireByName s.tsMnodeConnCache queryId with
    | (none, _) => (TsdbCode.TSDB_CODE_INVALID_CONNECTION, s)
    | (some _, c1) =>
      let c2 := updateNode (fun n => { n with data := { n.data with killed := 1 } }) queryId c1
      (TsdbCode.TSDB_CODE_SUCCESS, { s with tsMnodeConnCache := taosCacheRelease c2 queryId })

/-! ## Enumeration -/

/-- Modelled from the spec: the cursor of `Iterate()` over the cache's hash table
(`hash.h` is not among the sources); `visited` counts the entries the cursor has moved past,
the current entry being the last of them. -/
structure SHashMutableIterator where
  visited : Nat
  deriving DecidableEq, Repr

/-- Modelled from the spec: a fresh cursor, placed before the first entry. -/
def taosHashCreateIter (_c : SCacheObj) : SHashMutableIterator := { visited := 0 }

/-- Modelled from the spec: move the cursor to the next entry; `false` at end-of-stream. -/
def taosHashIterNext (c : SCacheObj) (it : SHashMutableIterator) :
    Bool × SHashMutableIterator :=
  if it.visited < c.length then (true, { visited := it.visited + 1 }) else (false, it)

/-- Modelled from the spec: the entry the cursor is placed on. -/
def taosHashIterGet (c : SCacheObj) (it : SHashMutableIterator) : Option SCacheDataNode :=
  if it.visited = 0 then none else c.get? (it.visited - 1)

/-- The function `mnodeGetNextConn`: the returned cursor (`none` for `NULL`, the cursor
having been destroyed) and the value stored through `pConn`. -/
def mnodeGetNextConn (c : SCacheObj) (pIter : Option SHashMutableIterator) :
    Option SHashMutableIterator × Option SConnObj :=
  let it := match pIter with
    | none => taosHashCreateIter c
    | some it => it
  match taosHashIterNext c it with
  | (false, _) => (none, none)
  | (true, it1) =>
    match taosHashIterGet c it1 with
    | none => (none, none)
    | some pNode => (some it1, some pNode.data)

/-- The constants of `taosdef.h` and the helpers of the C library and `tutil.h` that the
show-command code uses; none of them is defined in the sources. -/
structure TaosDef where
  TSDB_USER_LEN : Nat
  TSDB_IPv4ADDR_LEN : Nat
  VARSTR_HEADER_SIZE : Nat
  htons : Nat → Nat
  taosIpStr : Nat → String

/-- The column types used by the schema of the connections table. -/
inductive DataType where
  | TSDB_DATA_TYPE_INT
  | TSDB_DATA_TYPE_BINARY
  | TSDB_DATA_TYPE_TIMESTAMP
  | TSDB_DATA_TYPE_BIGINT
  deriving DecidableEq, Repr

/-- The fields of `SSchema` that the schema description assigns. -/
structure SSchema where
  type : DataType
  name : String
  bytes : Nat
  deriving DecidableEq, Repr

/-- The fields of `STableMetaMsg` that the schema description assigns. -/
structure STableMetaMsg where
  schema : Nat → SSchema
  numOfColumns : Nat

/-- The fields of `SShowObj` used by the connections table. -/
structure SShowObj where
  pIter : Option SHashMutableIterator
  bytes : Nat → Nat
  offset : Nat → Nat
  numOfColumns : Nat
  numOfRows : Int
  rowSize : Nat
  numOfReads : Int

/-- The three assignments to `pSchema[cols]` made for every column. -/
def setSchema (pMeta : STableMetaMsg) (cols : Nat) (type : DataType) (name : String)
    (bytes : Nat) : STableMetaMsg :=
  let column : SSchema := { type := type, name := name, bytes := bytes }
  { pMeta with schema := Function.update pMeta.schema cols column }

/-- The loop `for (i = 1; i < cols; ++i) offset[i] = offset[i - 1] + bytes[i - 1]`. -/
def offsetLoop (bytes : Nat → Nat) (cols : Nat) (offset : Nat → Nat) : Nat → Nat :=
  (List.range' 1 (cols - 1)).foldl
    (fun off i => Function.update off i (off (i - 1) + bytes (i - 1))) offset

/-- The function `mnodeGetConnsMeta`: the return value, the schema message and the show
object after the call. -/
def mnodeGetConnsMeta (d : TaosDef) (c : SCacheObj) (pMeta : STableMetaMsg)
    (pShow : SShowObj) : Int × STableMetaMsg × SShowObj :=
  let cols := 0
  let pShow := { pShow with bytes := Function.update pShow.bytes cols 4 }
  let pMeta := setSchema pMeta cols DataType.TSDB_DATA_TYPE_INT "connId"
    (d.htons (pShow.bytes cols))
  let cols := cols + 1
  let pShow := { pShow with
    bytes := Function.update pShow.bytes cols (d.TSDB_USER_LEN + d.VARSTR_HEADER_SIZE) }
  let pMeta := setSchema pMeta cols DataType.TSDB_DATA_TYPE_BINARY "user"
    (d.htons (pShow.bytes cols))
  let cols := cols + 1
  let pShow := { pShow with
    bytes := Function.update pShow.bytes cols
      (d.TSDB_IPv4ADDR_LEN + 6 + d.VARSTR_HEADER_SIZE) }
  let pMeta := setSchema pMeta cols DataType.TSDB_DATA_TYPE_BINARY "ip:port"
    (d.htons (pShow.bytes cols))
  let cols := cols + 1
  let pShow := { pShow with bytes := Function.update pShow.bytes cols 8 }
  let pMeta := setSchema pMeta cols DataType.TSDB_DATA_TYPE_TIMESTAMP "login time"
    (d.htons (pShow.bytes cols))
  let cols := cols + 1
  let pMeta := { pMeta with numOfColumns := d.htons cols }
  let pShow := { pShow with numOfColumns := cols }
  let pShow := { pShow with offset := Function.update pShow.offset 0 0 }
  let pShow := { pShow with offset := offsetLoop pShow.bytes cols pShow.offset }
  let pShow := { pShow with numOfRows := taosHashGetSize c }
  let pShow := { pShow with rowSize := pShow.offset (cols - 1) + pShow.bytes (cols - 1) }
  (0, pMeta, pShow)

/-- What one store through `pWrite` puts into the caller's buffer. -/
inductive Cell where
  | int32 (v : Nat)
  | varstr (s : String) (maxsize : Nat)
  | int64 (v : Nat)
  deriving DecidableEq, Repr

/-- One store into the caller's buffer `data`: `pos` is the distance of `pWrite` from `data`
in bytes. -/
structure Write where
  pos : Int
  cell : Cell
  deriving DecidableEq, Repr

/-- The text that `snprintf(buf, n, ...)` leaves in `buf`: at most `n - 1` characters. -/
def snprintf (n : Nat) (s : String) : String := s.take (n - 1)

/-- The four stores that the body of the loop of `mnodeRetrieveConns` makes for the connection
`pConnObj` when `numOfRows` rows have been produced so far; `offset` and `bytes` are the
arrays `pShow->offset` and `pShow->bytes`. -/
def formatConn (d : TaosDef) (offset bytes : Nat → Nat) (rows numOfRows : Int)
    (pConnObj : SConnObj) : List Write :=
  let ipStr := snprintf (d.TSDB_IPv4ADDR_LEN + 6)
    (d.taosIpStr pConnObj.ip ++ ":" ++ sprintf_u pConnObj.port)
  [ { pos := (offset 0 : Int) * rows + (bytes 0 : Int) * numOfRows,
      cell := Cell.int32 pConnObj.connId },
    { pos := (offset 1 : Int) * rows + (bytes 1 : Int) * numOfRows,
      cell := Cell.varstr pConnObj.user d.TSDB_USER_LEN },
    { pos := (offset 2 : Int) * rows + (bytes 2 : Int) * numOfRows,
      cell := Cell.varstr ipStr (d.TSDB_IPv4ADDR_LEN + 6) },
    { pos := (offset 3 : Int) * rows + (bytes 3 : Int) * numOfRows,
      cell := Cell.int64 pConnObj.stime } ]

/-- The loop `while (numOfRows < rows)` of `mnodeRetrieveConns`.  Every turn adds one to
`numOfRows`, so `rows` turns are enough; the first argument counts the turns left. -/
def mnodeRetrieveConnsLoop (d : TaosDef) (c : SCacheObj) (rows : Int) :
    Nat → SShowObj → Int → List Write → SShowObj × Int × List Write
  | 0, pShow, numOfRows, data => (pShow, numOfRows, data)
  | turns + 1, pShow, numOfRows, data =>
    if numOfRows < rows then
      let r := mnodeGetNextConn c pShow.pIter
      let pShow := { pShow with pIter := r.1 }
      match r.2 with
      | none => (pShow, numOfRows, data)
      | some pConnObj =>
        mnodeRetrieveConnsLoop d c rows turns pShow (numOfRows + 1)
          (data ++ formatConn d pShow.offset pShow.bytes rows numOfRows pConnObj)
    else (pShow, numOfRows, data)

/-- The function `mnodeRetrieveConns` called with `rows`: the show object after the call, the
returned number of rows and the stores made into `data`.  The closing call of
`mnodeVacuumResult` (in `mnodeShow.c`, not among the sources) only repacks `data`. -/
def mnodeRetrieveConns (d : TaosDef) (c : SCacheObj) (pShow : SShowObj) (rows : Int) :
    SShowObj × Int × List Write :=
  let r := mnodeRetrieveConnsLoop d c rows rows.toNat pShow 0 []
  ({ r.1 with numOfReads := r.1.numOfReads + r.2.1 }, r.2.1, r.2.2)

/-- The results (row count and stores) of `k` successive calls of `mnodeRetrieveConns` with
the same `rows` on an unchanged registry, each call continuing from the show object the
previous one left. -/
def retrievePages (d : TaosDef) (c : SCacheObj) (rows : Int) :
    Nat → SShowObj → List (Int × List Write)
  | 0, _ => []
  | k + 1, pShow =>
    let r := mnodeRetrieveConns d c pShow rows
    r.2 :: retrievePages d c rows k r.1

/-- The position of a cursor: the number of entries it has moved past; a null cursor stands
before the first entry. -/
def cursorPos : Option SHashMutableIterator → Nat
  | none => 0
  | some it => it.visited

/-- The stores expected for a page that reports the sessions `ms`, one row each, the rows
being numbered from `r`. -/
def pageWrites (d : TaosDef) (offset bytes : Nat → Nat) (rows : Int) :
    Int → List SCacheDataNode → List Write
  | _, [] => []
  | r, m :: ms =>
    formatConn d offset bytes rows r m.data ++ pageWrites d offset bytes rows (r + 1) ms

/-- The stores of several pages, one page after the other. -/
def allWrites : List (Int × List Write) → List Write
  | [] => []
  | r :: rs => r.2 ++ allWrites rs

/-- The connection ids stored in the first column, in the order they were written. -/
def writtenConnIds : List Write → List Nat
  | [] => []
  | w :: ws =>
    match w.cell with
    | Cell.int32 v => v :: writtenConnIds ws
    | _ => writtenConnIds ws

/-! ## Reachable states -/

/-- The states reachable from the initial state (empty registry, id counter 0) by admissions,
renewals, kill requests and runs of the reaper.  The first index counts the calls of
`mnodeCreateConn` made so far, the second is the clock, which every step may advance. -/
inductive Reachable (g : Globals) : Nat → Nat → MnodeState → Prop
  | init (t : Nat) :
      Reachable g 0 t
        { tsMnodeConnCache := [], tsConnIndex := 0, terrno := TsdbCode.TSDB_CODE_SUCCESS }
  | create {n t : Nat} {s : MnodeState} (dt : Nat) (user : String) (ip port : Nat) :
      Reachable g n t s →
      Reachable g (n + 1) (t + dt) (mnodeCreateConn g (t + dt) user ip port s).2
  | renew {n t : Nat} {s : MnodeState} (dt connId : Nat) (user : String) (ip port : Nat) :
      Reachable g n t s →
      Reachable g n (t + dt) (mnodeCheckConn g (t + dt) connId user ip port s).2
  | kill {n t : Nat} {s : MnodeState} (dt : Nat) (user queryId : String) :
      Reachable g n t s →
      Reachable g n (t + dt) (mnodeProcessKillConnectionMsg user queryId s).2
  | reap {n t : Nat} {s : MnodeState} (dt : Nat) :
      Reachable g n t s →
      Reachable g n (t + dt)
        { s with tsMnodeConnCache := taosCacheRefresh s.tsMnodeConnCache (t + dt) }

/-! ## Runs of consecutive admissions -/

/-- The value of a decimal digit character. -/
def digitValue (c : Char) : Nat := c.toNat - 48

/-- The number written by a list of decimal digits, continuing from `acc`. -/
def decodeDigits (acc : Nat) (cs : List Char) : Nat :=
  cs.foldl (fun a c => a * 10 + digitValue c) acc

/-! ## Sample configuration and states -/

/-- A configuration with room for ten connections and an activity timer of 3 seconds. -/
def demoGlobals : Globals := { tsMaxShellConns := 10, tsShellActivityTimer := 3 }

/-- The initial state: empty registry, id counter 0. -/
def initState : MnodeState :=
  { tsMnodeConnCache := [], tsConnIndex := 0, terrno := TsdbCode.TSDB_CODE_SUCCESS }

/-- The state after `alice` was admitted at time 1000 from 10.0.0.1, port 40000. -/
def aliceState : MnodeState :=
  (mnodeCreateConn demoGlobals 1000 "alice" 167772161 40000 initState).2

/-- Sample values for the constants of `taosdef.h`, with `htons` for a big-endian host and
the ip address shown as a plain number. -/
def demoDef : TaosDef :=
  { TSDB_USER_LEN := 24, TSDB_IPv4ADDR_LEN := 16, VARSTR_HEADER_SIZE := 2,
    htons := fun n => n, taosIpStr := fun ip => Nat.repr ip }

/-- A schema message with nothing filled in. -/
def emptyMeta : STableMetaMsg :=
  { schema := fun _ => { type := DataType.TSDB_DATA_TYPE_INT, name := "", bytes := 0 },
    numOfColumns := 0 }

/-- A show object with nothing filled in and a null cursor. -/
def emptyShow : SShowObj :=
  { pIter := none, bytes := fun _ => 0, offset := fun _ => 0, numOfColumns := 0,
    numOfRows := 0, rowSize := 0, numOfReads := 0 }

/-- The record of the session of `alice`. -/
def aliceConn : SConnObj :=
  { user := "alice", killed := 0, port := 40000, ip := 167772161, connId := 1, stime := 1000 }

/-- A registry of three sessions. -/
def threeConns : SCacheObj :=
  [ { key := "1",
      data := { user := "alice", killed := 0, port := 40000, ip := 167772161, connId := 1,
                stime := 1000 },
      expiredTime := 10000, refCount := 0 },
    { key := "2",
      data := { user := "bob", killed := 0, port := 40001, ip := 167772162, connId := 2,
                stime := 2000 },
      expiredTime := 11000, refCount := 0 },
    { key := "3",
      data := { user := "carol", killed := 0, port := 40002, ip := 167772163, connId := 3,
                stime := 3000 },
      expiredTime := 12000, refCount := 0 } ]

/-- A configuration with `tsMaxShellConns = 1` and an activity timer of one second, so that
`CONN_KEEP_TIME` is 3 seconds. -/
def smallGlobals : Globals := { tsMaxShellConns := 1, tsShellActivityTimer := 1 }

/-- The registry entry of the session with id 2, admitted for `bob` at time 0, with its expiry
at `e`. -/
def bobNode (e : Nat) : SCacheDataNode :=
  { key := sprintf_u 2,
    data := { user := "bob", killed := 0, port := 40001, ip := 167772162, connId := 2,
              stime := 0 },
    expiredTime := e, refCount := 0 }

/-- The state in which the session of `bob` is the only one registered. -/
def bobState (e idx : Nat) : MnodeState :=
  { tsMnodeConnCache := [bobNode e], tsConnIndex := idx, terrno := TsdbCode.TSDB_CODE_SUCCESS }

/-- What identifies a registry entry: its key and the id stored in it. -/
def nodeIdent (m : SCacheDataNode) : String × Nat := (m.key, m.data.connId)

/-- The value of the id counter after an admission that is not rejected. -/
def nextIndex (v : Nat) : Nat :=
  if atomic_add_fetch_32 v 1 = 0 then atomic_add_fetch_32 (atomic_add_fetch_32 v 1) 1
  else atomic_add_fetch_32 v 1

/-- The invariant behind the uniqueness of ids, on the keys and ids `l` of the registry, the
id counter `idx` and the number `n` of admissions made so far: every key is the text of the
id stored under it, no key occurs twice, and as long as fewer than `2 ^ 32` admissions have
been made the counter is at most `n` and every registered id lies between 1 and the
counter. -/
def IdInvL (n idx : Nat) (l : List (String × Nat)) : Prop :=
  (∀ p ∈ l, p.1 = sprintf_u p.2) ∧
  (l.map Prod.fst).Nodup ∧
  (n < 2 ^ 32 → idx ≤ n ∧ ∀ p ∈ l, 1 ≤ p.2 ∧ p.2 ≤ idx)

/-- The invariant `IdInvL` of a state. -/
def IdInv (n : Nat) (s : MnodeState) : Prop :=
  IdInvL n s.tsConnIndex (s.tsMnodeConnCache.map nodeIdent)

/-! ## Byte ranges of the stores and of the key -/

/-- The first byte, counted from `data`, of the range that `mnodeRetrieveConns` called with
`rows` writes for column `col` of row `r`: `offset[col] * rows + bytes[col] * r`. -/
def writeStart (pShow : SShowObj) (rows col r : Nat) : Nat :=
  pShow.offset col * rows + pShow.bytes col * r

/-- The end (exclusive) of that range, `bytes[col]` bytes after its start. -/
def writeEnd (pShow : SShowObj) (rows col r : Nat) : Nat :=
  pShow.offset col * rows + pShow.bytes col * (r + 1)

/-- What `mnodeRetrieveConns` stores in column `col` of the row of `pConnObj`: the id, the
user name, the text `ip:port` and the login time, in the order of the schema. -/
def columnCell (d : TaosDef) (col : Nat) (pConnObj : SConnObj) : Cell :=
  match col with
  | 0 => Cell.int32 pConnObj.connId
  | 1 => Cell.varstr pConnObj.user d.TSDB_USER_LEN
  | 2 =>
    Cell.varstr
      (snprintf (d.TSDB_IPv4ADDR_LEN + 6)
        (d.taosIpStr pConnObj.ip ++ ":" ++ sprintf_u pConnObj.port))
      (d.TSDB_IPv4ADDR_LEN + 6)
  | _ => Cell.int64 pConnObj.stime

/-- Modelled from the spec: the number of bytes a store occupies from `pWrite` on.  An
`int32_t` takes 4 bytes and an `int64_t` 8; the macro `STR_WITH_MAXSIZE_TO_VARSTR` (in
`taosdef.h`, not among the sources) writes the length header of `VARSTR_HEADER_SIZE` bytes and
the text cut to at most `maxsize` bytes, the declared width of a string column. -/
def cellBytes (d : TaosDef) : Cell → Nat
  | Cell.int32 _ => 4
  | Cell.varstr _ maxsize => d.VARSTR_HEADER_SIZE + maxsize
  | Cell.int64 _ => 8

/-- The size of the caller's buffer `data` for `rows` rows, `rowSize * rows` bytes. -/
def bufferSize (pShow : SShowObj) (rows : Nat) : Nat := pShow.rowSize * rows

/-- The size of the buffer declared by `char key[10]` in `mnodeCreateConn` and
`mnodeCheckConn`. -/
def KEY_SIZE : Nat := 10

/-- The number of bytes that `sprintf(key, "%u", connId)` stores into `key`: one per decimal
digit and the terminating NUL byte. -/
def sprintfBytes (connId : Nat) : Nat := (sprintf_u connId).length + 1

/-! ## Lemmas on the cache primitives -/

theorem taosHashGet_eq_none {c : SCacheObj} {key : String} :
    taosHashGet c key = none ↔ ∀ m ∈ c, m.key ≠ key := by
  simp [taosHashGet, List.find?_eq_none]

theorem taosHashGet_split {pre post : SCacheObj} {n : SCacheDataNode} {key : String}
    (hpre : ∀ m ∈ pre, m.key ≠ key) (hn : n.key = key) :
    taosHashGet (pre ++ n :: post) key = some n := by
  induction pre with
  | nil => simp [taosHashGet, hn]
  | cons a pre ih =>
    have ha : a.key ≠ key := hpre a (List.mem_cons_self _ _)
    have ih1 := ih (fun m hm => hpre m (List.mem_cons_of_mem _ hm))
    simpa [taosHashGet, ha] using ih1

theorem updateNode_split (f : SCacheDataNode → SCacheDataNode) {pre post : SCacheObj}
    {n : SCacheDataNode} {key : String}
    (hpre : ∀ m ∈ pre, m.key ≠ key) (hn : n.key = key) :
    updateNode f key (pre ++ n :: post) = pre ++ f n :: post := by
  induction pre with
  | nil => simp [updateNode, hn]
  | cons a pre ih =>
    have ha : a.key ≠ key := hpre a (List.mem_cons_self _ _)
    have ih1 := ih (fun m hm => hpre m (List.mem_cons_of_mem _ hm))
    simp [updateNode, ha, ih1]

theorem exists_split {c : SCacheObj} {key : String} {n : SCacheDataNode}
    (h : taosHashGet c key = some n) :
    ∃ pre post, c = pre ++ n :: post ∧ (∀ m ∈ pre, m.key ≠ key) ∧ n.key = key := by
  induction c with
  | nil => simp [taosHashGet] at h
  | cons a c ih =>
    by_cases ha : a.key = key
    · have : a = n := by simpa [taosHashGet, ha] using h
      subst this
      exact ⟨[], c, rfl, by simp, ha⟩
    · have h1 : taosHashGet c key = some n := by simpa [taosHashGet, ha] using h
      obtain ⟨pre, post, hc, hpre, hn⟩ := ih h1
      refine ⟨a :: pre, post, by simp [hc], ?_, hn⟩
      intro m hm
      rcases List.mem_cons.1 hm with h2 | h2
      · exact h2 ▸ ha
      · exact hpre m h2

/-- The renewal of an entry found under `key`: the cache after the update of the expiry and
the release of the handle. -/
theorem renew_split {pre post : SCacheObj} {n : SCacheDataNode} {key : String} (e : Nat)
    (hpre : ∀ m ∈ pre, m.key ≠ key) (hn : n.key = key) :
    taosCacheRelease (taosCacheUpdateExpireTimeByName (pre ++ n :: post) key e).2 key
      = pre ++ { n with expiredTime := e } :: post := by
  simp only [taosCacheUpdateExpireTimeByName, taosHashGet_split hpre hn, taosCacheRelease]
  rw [updateNode_split _ hpre hn, updateNode_split _ hpre (by simpa using hn)]
  simp

/-! ## The decimal key determines the id -/

theorem digitValue_digitChar : ∀ k, k < 10 → digitValue (Nat.digitChar k) = k := by
  decide

theorem decodeDigits_toDigitsCore (fuel : Nat) :
    ∀ (n : Nat) (ds : List Char), n < fuel →
      decodeDigits 0 (Nat.toDigitsCore 10 fuel n ds) = decodeDigits n ds := by
  induction fuel with
  | zero => intro n ds h; omega
  | succ fuel ih =>
    intro n ds h
    have hd := digitValue_digitChar (n % 10) (Nat.mod_lt _ (by decide))
    simp only [Nat.toDigitsCore]
    by_cases h0 : n / 10 = 0
    · simp only [h0, if_true, decodeDigits, List.foldl_cons, hd]
      congr 1
      omega
    · simp only [h0, if_false]
      rw [ih (n / 10) _ (by omega)]
      simp only [decodeDigits, List.foldl_cons, hd]
      congr 1
      omega

theorem decodeDigits_sprintf_u (n : Nat) : decodeDigits 0 (sprintf_u n).data = n := by
  simp only [sprintf_u, Nat.repr, Nat.toDigits, List.asString]
  exact decodeDigits_toDigitsCore (n + 1) n [] (Nat.lt_succ_self n)

theorem sprintf_u_injective {a b : Nat} (h : sprintf_u a = sprintf_u b) : a = b := by
  have := congrArg (fun t => decodeDigits 0 t.data) h
  simpa [decodeDigits_sprintf_u] using this

/-! ## C1: the id handed out at wraparound -/

/-- C1: at the counter value `0xFFFFFFFF`, with an empty registry and room for ten
connections, `mnodeCreateConn` is not rejected, returns the id 0, stores the new session under
the key "0" with `connId = 0`, and leaves the counter at 1: the second increment is made but
its result is not used as the id. -/
theorem mnodeCreateConn_wraparound_returns_zero :
    mnodeCreateConn { tsMaxShellConns := 10, tsShellActivityTimer := 1 } 1000 "alice"
        167772161 40000
        { tsMnodeConnCache := [], tsConnIndex := 4294967295,
          terrno := TsdbCode.TSDB_CODE_SUCCESS }
      = (0,
          { tsMnodeConnCache :=
              [{ key := "0",
                 data := { user := "alice", killed := 0, port := 40000, ip := 167772161,
                           connId := 0, stime := 1000 },
                 expiredTime := 4000, refCount := 0 }],
            tsConnIndex := 1,
            terrno := TsdbCode.TSDB_CODE_SUCCESS }) := by
  decide

/-! ## C2: a refused renewal and the expiry times -/

/-- C2, as stated, fails: `alice` is registered under id 1 from ip 10.0.0.1 with the expiry
10000; a renewal of id 1 at time 5000 that presents the ip 10.0.0.2 returns false and yet
leaves the entry with the expiry 14000. -/
theorem mnodeCheckConn_false_may_extend_expiry :
    (mnodeCheckConn demoGlobals 5000 1 "alice" 167772162 40000 aliceState).1 = false ∧
    aliceState.tsMnodeConnCache.map SCacheDataNode.expiredTime = [10000] ∧
    (mnodeCheckConn demoGlobals 5000 1 "alice" 167772162 40000 aliceState).2.tsMnodeConnCache.map
        SCacheDataNode.expiredTime = [14000] := by
  decide

/-- C2, amended: when `mnodeCheckConn` returns false because no session is registered under
the key of `connId`, the state (hence every expiry) is unchanged; when it returns false for a
registered session, the presented ip or port differs from the stored one, that one entry has
its expiry set to `now + CONN_KEEP_TIME * 1000` and nothing else in the registry changes. -/
theorem mnodeCheckConn_false_effect (g : Globals) (now connId : Nat) (user : String)
    (ip port : Nat) (s : MnodeState)
    (hfalse : (mnodeCheckConn g now connId user ip port s).1 = false) :
    (taosHashGet s.tsMnodeConnCache (sprintf_u connId) = none ∧
        (mnodeCheckConn g now connId user ip port s).2 = s) ∨
    (∃ pre n post,
        s.tsMnodeConnCache = pre ++ n :: post ∧
        (∀ m ∈ pre, m.key ≠ sprintf_u connId) ∧ n.key = sprintf_u connId ∧
        (n.data.ip ≠ ip ∨ n.data.port ≠ port) ∧
        (mnodeCheckConn g now connId user ip port s).2 =
          { s with tsMnodeConnCache :=
              pre ++ { n with expiredTime := (CONN_KEEP_TIME g * 1000 + now) % 2 ^ 64 }
                :: post }) := by
  cases hget : taosHashGet s.tsMnodeConnCache (sprintf_u connId) with
  | none =>
    left
    simp [mnodeCheckConn, taosCacheUpdateExpireTimeByName, hget]
  | some n =>
    right
    obtain ⟨pre, post, hc, hpre, hn⟩ := exists_split hget
    have hr := @renew_split pre post n (sprintf_u connId)
      ((CONN_KEEP_TIME g * 1000 + now) % 2 ^ 64) hpre hn
    have hu : (taosCacheUpdateExpireTimeByName s.tsMnodeConnCache (sprintf_u connId)
        ((CONN_KEEP_TIME g * 1000 + now) % 2 ^ 64)).1 = some n.data := by
      simp [taosCacheUpdateExpireTimeByName, hget]
    rw [← hc] at hr
    refine ⟨pre, n, post, hc, hpre, hn, ?_, ?_⟩
    · by_contra hcon
      have hip : n.data.ip = ip := by
        by_contra h1
        exact hcon (Or.inl h1)
      have hport : n.data.port = port := by
        by_contra h1
        exact hcon (Or.inr h1)
      simp [mnodeCheckConn, taosCacheUpdateExpireTimeByName, hget, hip, hport] at hfalse
    · simp only [mnodeCheckConn]
      generalize hq : taosCacheUpdateExpireTimeByName s.tsMnodeConnCache (sprintf_u connId)
        ((CONN_KEEP_TIME g * 1000 + now) % 2 ^ 64) = q at hr hu
      obtain ⟨q1, q2⟩ := q
      simp only at hr hu
      subst hu
      simp only [hr]
      split <;> rfl

/-- The amended C2 at the renewal of `alice` from another ip: the call returns false, the
session is registered, and the effect is the one stated. -/
theorem mnodeCheckConn_false_effect_witness :
    (mnodeCheckConn demoGlobals 5000 1 "alice" 167772162 40000 aliceState).1 = false ∧
    ((taosHashGet aliceState.tsMnodeConnCache (sprintf_u 1) = none ∧
        (mnodeCheckConn demoGlobals 5000 1 "alice" 167772162 40000 aliceState).2 = aliceState) ∨
    (∃ pre n post,
        aliceState.tsMnodeConnCache = pre ++ n :: post ∧
        (∀ m ∈ pre, m.key ≠ sprintf_u 1) ∧ n.key = sprintf_u 1 ∧
        (n.data.ip ≠ 167772162 ∨ n.data.port ≠ 40000) ∧
        (mnodeCheckConn demoGlobals 5000 1 "alice" 167772162 40000 aliceState).2 =
          { aliceState with tsMnodeConnCache :=
              pre ++ { n with expiredTime := (CONN_KEEP_TIME demoGlobals * 1000 + 5000) % 2 ^ 64 }
                :: post })) :=
  ⟨by decide,
    mnodeCheckConn_false_effect demoGlobals 5000 1 "alice" 167772162 40000 aliceState
      (by decide)⟩

/-! ## C4: rejection of an admission -/

/-- The cache after a `taosCachePut` under a key that is not present and the release of the
returned handle. -/
theorem put_release_fresh {c : SCacheObj} {key : String} (data : SConnObj) (duration now : Nat)
    (h : taosHashGet c key = none) :
    taosCacheRelease (taosCachePut c key data duration now) key
      = c ++ [{ key := key, data := data, expiredTime := now + duration * 1000,
                refCount := 0 }] := by
  have hfree := taosHashGet_eq_none.1 h
  simp only [taosCachePut, h, taosCacheRelease]
  have := @updateNode_split (fun n => { n with refCount := n.refCount - 1 }) c []
    { key := key, data := data, expiredTime := now + duration * 1000, refCount := 1 } key
    hfree rfl
  simpa using this

/-- The cache after a `taosCachePut` under a key that is present and the release of the
returned handle. -/
theorem put_release_present {pre post : SCacheObj} {n : SCacheDataNode} {key : String}
    (data : SConnObj) (duration now : Nat)
    (hpre : ∀ m ∈ pre, m.key ≠ key) (hn : n.key = key) :
    taosCacheRelease (taosCachePut (pre ++ n :: post) key data duration now) key
      = pre ++ { key := key, data := data, expiredTime := now + duration * 1000,
                 refCount := 0 } :: post := by
  simp only [taosCachePut, taosHashGet_split hpre hn, taosCacheRelease]
  rw [updateNode_split _ hpre hn, updateNode_split _ hpre rfl]
  rfl

/-- The session just admitted is found under its key. -/
theorem taosHashGet_put_release (c : SCacheObj) (key : String) (data : SConnObj)
    (duration now : Nat) :
    taosHashGet (taosCacheRelease (taosCachePut c key data duration now) key) key
      = some { key := key, data := data, expiredTime := now + duration * 1000,
               refCount := 0 } := by
  cases h : taosHashGet c key with
  | none =>
    rw [put_release_fresh data duration now h]
    exact @taosHashGet_split c [] _ key (taosHashGet_eq_none.1 h) rfl
  | some n =>
    obtain ⟨pre, post, hc, hpre, hn⟩ := exists_split h
    rw [hc, put_release_present data duration now hpre hn]
    exact taosHashGet_split hpre rfl

/-- The id counter never keeps its value across an admission that is not rejected. -/
theorem counter_advances (v : Nat) :
    (if atomic_add_fetch_32 v 1 = 0 then atomic_add_fetch_32 (atomic_add_fetch_32 v 1) 1
      else atomic_add_fetch_32 v 1) ≠ v := by
  unfold atomic_add_fetch_32
  split <;> omega

/-- C4: `mnodeCreateConn` is rejected exactly when the registry size exceeds
`tsMaxShellConns`.  When it does, the call returns 0, sets `terrno` to
`TSDB_CODE_TOO_MANY_SHELL_CONNS` and changes nothing else: the registry and the id counter
are the same.  When it does not, `terrno` is left alone, the id counter moves and the new
session is registered under the key of the returned id. -/
theorem mnodeCreateConn_reject_iff (g : Globals) (now : Nat) (user : String) (ip port : Nat)
    (s : MnodeState) :
    (taosHashGetSize s.tsMnodeConnCache > g.tsMaxShellConns ↔
      (mnodeCreateConn g now user ip port s).2.tsConnIndex = s.tsConnIndex) ∧
    (taosHashGetSize s.tsMnodeConnCache > g.tsMaxShellConns ↔
      mnodeCreateConn g now user ip port s
        = (0, { s with terrno := TsdbCode.TSDB_CODE_TOO_MANY_SHELL_CONNS })) ∧
    (taosHashGetSize s.tsMnodeConnCache > g.tsMaxShellConns ∨
      ((mnodeCreateConn g now user ip port s).2.terrno = s.terrno ∧
        taosHashGet (mnodeCreateConn g now user ip port s).2.tsMnodeConnCache
            (sprintf_u (mnodeCreateConn g now user ip port s).1)
          = some { key := sprintf_u (mnodeCreateConn g now user ip port s).1,
                   data := { user := user, killed := 0, port := port, ip := ip,
                             connId := (mnodeCreateConn g now user ip port s).1,
                             stime := now },
                   expiredTime := now + CONN_KEEP_TIME g * 1000, refCount := 0 })) := by
  by_cases h : taosHashGetSize s.tsMnodeConnCache > g.tsMaxShellConns
  · simp [mnodeCreateConn, h]
  · have hadv := counter_advances s.tsConnIndex
    refine ⟨?_, ?_, Or.inr ⟨?_, ?_⟩⟩
    · simp only [mnodeCreateConn, h, if_false]
      exact ⟨fun h1 => absurd h1 (by simp), fun h1 => absurd h1 hadv⟩
    · simp only [mnodeCreateConn, h, if_false, false_iff]
      intro h1
      have h2 := congrArg (fun r => r.2.tsConnIndex) h1
      exact hadv h2
    · simp [mnodeCreateConn, h]
    · simp only [mnodeCreateConn, h, if_false]
      exact taosHashGet_put_release _ _ _ _ _

/-! ## C5: when a renewal is accepted -/

/-- C5: `mnodeCheckConn` returns true if and only if a session is registered under the
decimal key of `connId` and its stored ip and port equal the presented ones; the presented
user plays no part, two calls that differ only in it give the same result. -/
theorem mnodeCheckConn_true_iff (g : Globals) (now connId : Nat) (user : String)
    (ip port : Nat) (s : MnodeState) :
    ((mnodeCheckConn g now connId user ip port s).1 = true ↔
      ∃ n, taosHashGet s.tsMnodeConnCache (sprintf_u connId) = some n ∧
        n.data.ip = ip ∧ n.data.port = port) ∧
    (∀ user2 : String,
      mnodeCheckConn g now connId user2 ip port s
        = mnodeCheckConn g now connId user ip port s) := by
  refine ⟨?_, fun _ => rfl⟩
  cases hget : taosHashGet s.tsMnodeConnCache (sprintf_u connId) with
  | none => simp [mnodeCheckConn, taosCacheUpdateExpireTimeByName, hget]
  | some n =>
    by_cases hip : n.data.ip = ip <;> by_cases hport : n.data.port = port <;>
      simp [mnodeCheckConn, taosCacheUpdateExpireTimeByName, hget, hip, hport]

/-! ## C6 and C7: the kill request -/

/-- C6: for a user other than "root", `mnodeProcessKillConnectionMsg` returns
`TSDB_CODE_NO_RIGHTS` and the state is unchanged, whether or not the key is registered; for
"root" it returns `TSDB_CODE_INVALID_CONNECTION` when no session is registered under the key
and `TSDB_CODE_SUCCESS` when one is. -/
theorem mnodeProcessKillConnectionMsg_result (user queryId : String) (s : MnodeState) :
    (mnodeProcessKillConnectionMsg user queryId s).1
      = (if user = "root" then
          (if (taosHashGet s.tsMnodeConnCache queryId).isSome then TsdbCode.TSDB_CODE_SUCCESS
            else TsdbCode.TSDB_CODE_INVALID_CONNECTION)
        else TsdbCode.TSDB_CODE_NO_RIGHTS) ∧
    (user = "root" ∨
      mnodeProcessKillConnectionMsg user queryId s = (TsdbCode.TSDB_CODE_NO_RIGHTS, s)) := by
  by_cases hu : user = "root"
  · cases hget : taosHashGet s.tsMnodeConnCache queryId <;>
      simp [mnodeProcessKillConnectionMsg, taosCacheAcquireByName, hu, hget]
  · simp [mnodeProcessKillConnectionMsg, hu]

/-- The kill of an entry found under `key`: the cache after the handle was acquired, the flag
set and the handle released. -/
theorem kill_split {pre post : SCacheObj} {n : SCacheDataNode} {key : String}
    (hpre : ∀ m ∈ pre, m.key ≠ key) (hn : n.key = key) :
    taosCacheRelease
        (updateNode (fun m => { m with data := { m.data with killed := 1 } }) key
          (taosCacheAcquireByName (pre ++ n :: post) key).2) key
      = pre ++ { n with data := { n.data with killed := 1 } } :: post := by
  simp only [taosCacheAcquireByName, taosHashGet_split hpre hn, taosCacheRelease]
  rw [updateNode_split _ hpre hn, updateNode_split _ hpre (by simpa using hn),
    updateNode_split _ hpre (by simpa using hn)]
  simp

/-- The administrator's kill of a session registered as the entry `n` between `pre` and
`post`. -/
theorem kill_root_split {pre post : SCacheObj} {n : SCacheDataNode} {key : String}
    (idx : Nat) (e : TsdbCode) (hpre : ∀ m ∈ pre, m.key ≠ key) (hn : n.key = key) :
    mnodeProcessKillConnectionMsg "root" key
        { tsMnodeConnCache := pre ++ n :: post, tsConnIndex := idx, terrno := e }
      = (TsdbCode.TSDB_CODE_SUCCESS,
          { tsMnodeConnCache := pre ++ { n with data := { n.data with killed := 1 } } :: post,
            tsConnIndex := idx, terrno := e }) := by
  have hk := @kill_split pre post n key hpre hn
  have ha : (taosCacheAcquireByName (pre ++ n :: post) key).1 = some n.data := by
    simp [taosCacheAcquireByName, taosHashGet_split hpre hn]
  simp only [mnodeProcessKillConnectionMsg]
  generalize taosCacheAcquireByName (pre ++ n :: post) key = q at hk ha
  obtain ⟨q1, q2⟩ := q
  simp only at hk ha
  subst ha
  simp [hk]

/-- C7: when a session `n` is registered under `key`, the administrator's kill returns
`TSDB_CODE_SUCCESS` and the registry afterwards is the one before with `killed` set to 1 in
that entry, whatever its value was: no other field of the entry, no other entry, and neither
the id counter nor `terrno` changes.  A second kill returns `TSDB_CODE_SUCCESS` again and
leaves the state reached by the first. -/
theorem mnodeProcessKillConnectionMsg_root_existing (s : MnodeState) (key : String)
    (n : SCacheDataNode) (h : taosHashGet s.tsMnodeConnCache key = some n) :
    ∃ pre post,
      s.tsMnodeConnCache = pre ++ n :: post ∧ (∀ m ∈ pre, m.key ≠ key) ∧
      mnodeProcessKillConnectionMsg "root" key s
        = (TsdbCode.TSDB_CODE_SUCCESS,
            { s with tsMnodeConnCache :=
                pre ++ { n with data := { n.data with killed := 1 } } :: post }) ∧
      mnodeProcessKillConnectionMsg "root" key
          (mnodeProcessKillConnectionMsg "root" key s).2
        = (TsdbCode.TSDB_CODE_SUCCESS, (mnodeProcessKillConnectionMsg "root" key s).2) := by
  obtain ⟨pre, post, hc, hpre, hn⟩ := exists_split h
  obtain ⟨c, idx, e⟩ := s
  simp only at hc
  subst hc
  have h1 := @kill_root_split pre post n key idx e hpre hn
  refine ⟨pre, post, rfl, hpre, h1, ?_⟩
  rw [h1]
  exact @kill_root_split pre post _ key idx e hpre (by simpa using hn)

/-- C7 at the kill of the session of `alice`, registered under the key "1". -/
theorem mnodeProcessKillConnectionMsg_root_existing_witness :
    ∃ pre post,
      aliceState.tsMnodeConnCache
        = pre ++ { key := "1",
                   data := { user := "alice", killed := 0, port := 40000, ip := 167772161,
                             connId := 1, stime := 1000 },
                   expiredTime := 10000, refCount := 0 } :: post ∧
      (∀ m ∈ pre, m.key ≠ "1") ∧
      mnodeProcessKillConnectionMsg "root" "1" aliceState
        = (TsdbCode.TSDB_CODE_SUCCESS,
            { aliceState with tsMnodeConnCache :=
                pre ++ { key := "1",
                         data := { user := "alice", killed := 1, port := 40000,
                                   ip := 167772161, connId := 1, stime := 1000 },
                         expiredTime := 10000, refCount := 0 } :: post }) ∧
      mnodeProcessKillConnectionMsg "root" "1"
          (mnodeProcessKillConnectionMsg "root" "1" aliceState).2
        = (TsdbCode.TSDB_CODE_SUCCESS, (mnodeProcessKillConnectionMsg "root" "1" aliceState).2) :=
  mnodeProcessKillConnectionMsg_root_existing aliceState "1"
    { key := "1",
      data := { user := "alice", killed := 0, port := 40000, ip := 167772161,
                connId := 1, stime := 1000 },
      expiredTime := 10000, refCount := 0 }
    (by decide)

/-! ## C3: how many admissions fit -/

/-- The name given to the fourth column. -/
theorem mnodeGetConnsMeta_fourth_name (d : TaosDef) (c : SCacheObj) (pMeta : STableMetaMsg)
    (pShow : SShowObj) :
    ((mnodeGetConnsMeta d c pMeta pShow).2.1.schema 3).name = "login time" := by
  simp [mnodeGetConnsMeta, setSchema, Function.update]

/-- C9, as stated, fails on one name: the fourth column is called "login time", not
"login_time". -/
theorem mnodeGetConnsMeta_fourth_name_ne :
    ((mnodeGetConnsMeta demoDef threeConns emptyMeta emptyShow).2.1.schema 3).name
        = "login time" ∧
    ((mnodeGetConnsMeta demoDef threeConns emptyMeta emptyShow).2.1.schema 3).name
        ≠ "login_time" := by
  rw [mnodeGetConnsMeta_fourth_name]
  decide

/-- C9, amended: `mnodeGetConnsMeta` declares exactly four columns, in this order: "connId"
(int, 4 bytes), "user" (binary, `TSDB_USER_LEN + VARSTR_HEADER_SIZE` bytes), "ip:port"
(binary, `TSDB_IPv4ADDR_LEN + 6 + VARSTR_HEADER_SIZE` bytes) and "login time" (timestamp,
8 bytes); the schema message carries each width and the column count through `htons`; each
offset is the sum of the widths before it, the row size is the sum of the four widths, and the
reported number of rows is the size of the registry. -/
theorem mnodeGetConnsMeta_schema (d : TaosDef) (c : SCacheObj) (pMeta : STableMetaMsg)
    (pShow : SShowObj) :
    (mnodeGetConnsMeta d c pMeta pShow).1 = 0 ∧
    (mnodeGetConnsMeta d c pMeta pShow).2.2.numOfColumns = 4 ∧
    (mnodeGetConnsMeta d c pMeta pShow).2.1.numOfColumns = d.htons 4 ∧
    (mnodeGetConnsMeta d c pMeta pShow).2.1.schema 0
      = { type := DataType.TSDB_DATA_TYPE_INT, name := "connId", bytes := d.htons 4 } ∧
    (mnodeGetConnsMeta d c pMeta pShow).2.1.schema 1
      = { type := DataType.TSDB_DATA_TYPE_BINARY, name := "user",
          bytes := d.htons (d.TSDB_USER_LEN + d.VARSTR_HEADER_SIZE) } ∧
    (mnodeGetConnsMeta d c pMeta pShow).2.1.schema 2
      = { type := DataType.TSDB_DATA_TYPE_BINARY, name := "ip:port",
          bytes := d.htons (d.TSDB_IPv4ADDR_LEN + 6 + d.VARSTR_HEADER_SIZE) } ∧
    (mnodeGetConnsMeta d c pMeta pShow).2.1.schema 3
      = { type := DataType.TSDB_DATA_TYPE_TIMESTAMP, name := "login time",
          bytes := d.htons 8 } ∧
    (mnodeGetConnsMeta d c pMeta pShow).2.2.bytes 0 = 4 ∧
    (mnodeGetConnsMeta d c pMeta pShow).2.2.bytes 1
      = d.TSDB_USER_LEN + d.VARSTR_HEADER_SIZE ∧
    (mnodeGetConnsMeta d c pMeta pShow).2.2.bytes 2
      = d.TSDB_IPv4ADDR_LEN + 6 + d.VARSTR_HEADER_SIZE ∧
    (mnodeGetConnsMeta d c pMeta pShow).2.2.bytes 3 = 8 ∧
    (mnodeGetConnsMeta d c pMeta pShow).2.2.offset 0 = 0 ∧
    (mnodeGetConnsMeta d c pMeta pShow).2.2.offset 1
      = (mnodeGetConnsMeta d c pMeta pShow).2.2.bytes 0 ∧
    (mnodeGetConnsMeta d c pMeta pShow).2.2.offset 2
      = (mnodeGetConnsMeta d c pMeta pShow).2.2.bytes 0
        + (mnodeGetConnsMeta d c pMeta pShow).2.2.bytes 1 ∧
    (mnodeGetConnsMeta d c pMeta pShow).2.2.offset 3
      = (mnodeGetConnsMeta d c pMeta pShow).2.2.bytes 0
        + (mnodeGetConnsMeta d c pMeta pShow).2.2.bytes 1
        + (mnodeGetConnsMeta d c pMeta pShow).2.2.bytes 2 ∧
    (mnodeGetConnsMeta d c pMeta pShow).2.2.rowSize
      = (mnodeGetConnsMeta d c pMeta pShow).2.2.bytes 0
        + (mnodeGetConnsMeta d c pMeta pShow).2.2.bytes 1
        + (mnodeGetConnsMeta d c pMeta pShow).2.2.bytes 2
        + (mnodeGetConnsMeta d c pMeta pShow).2.2.bytes 3 ∧
    (mnodeGetConnsMeta d c pMeta pShow).2.2.numOfRows = taosHashGetSize c := by
  simp [mnodeGetConnsMeta, setSchema, offsetLoop, Function.update, List.range']

/-! ## C8: paging through the registry -/

theorem cursorPos_some (it : SHashMutableIterator) : cursorPos (some it) = it.visited := rfl

theorem cursorPos_none : cursorPos none = 0 := rfl

theorem mnodeGetNextConn_lt (c : SCacheObj) (pIter : Option SHashMutableIterator)
    (h : cursorPos pIter < c.length) :
    mnodeGetNextConn c pIter
      = (some { visited := cursorPos pIter + 1 }, some (c.get ⟨cursorPos pIter, h⟩).data) := by
  cases pIter with
  | none =>
    simp only [cursorPos] at h
    simp [mnodeGetNextConn, taosHashCreateIter, taosHashIterNext, taosHashIterGet, h, cursorPos]
  | some it =>
    simp only [cursorPos] at h
    simp [mnodeGetNextConn, taosHashIterNext, taosHashIterGet, h, cursorPos]

theorem mnodeGetNextConn_ge (c : SCacheObj) (pIter : Option SHashMutableIterator)
    (h : c.length ≤ cursorPos pIter) : mnodeGetNextConn c pIter = (none, none) := by
  cases pIter with
  | none =>
    simp only [cursorPos] at h
    simp [mnodeGetNextConn, taosHashCreateIter, taosHashIterNext, Nat.not_lt.2 h]
  | some it =>
    simp only [cursorPos] at h
    simp [mnodeGetNextConn, taosHashIterNext, Nat.not_lt.2 h]

theorem drop_take_succ (c : SCacheObj) (p turns : Nat) (h : p < c.length) :
    (c.drop p).take (turns + 1) = c.get ⟨p, h⟩ :: (c.drop (p + 1)).take turns := by
  rw [List.drop_eq_getElem_cons h, List.take_succ_cons]
  rfl

/-- The loop of `mnodeRetrieveConns` entered with `turns` rows still to produce and the
cursor at position `p`: it produces `min turns (N - p)` rows, the stores of the sessions at
the positions from `p` on, and leaves the cursor `turns` entries further, or null when it met
the end of the registry. -/
theorem mnodeRetrieveConnsLoop_spec (d : TaosDef) (c : SCacheObj) (rows : Int) :
    ∀ (turns : Nat) (pShow : SShowObj) (numOfRows : Int) (data : List Write),
      numOfRows + turns = rows →
      (mnodeRetrieveConnsLoop d c rows turns pShow numOfRows data).1.offset = pShow.offset ∧
      (mnodeRetrieveConnsLoop d c rows turns pShow numOfRows data).1.bytes = pShow.bytes ∧
      cursorPos (mnodeRetrieveConnsLoop d c rows turns pShow numOfRows data).1.pIter
        = (if turns ≤ c.length - cursorPos pShow.pIter then cursorPos pShow.pIter + turns
            else 0) ∧
      (mnodeRetrieveConnsLoop d c rows turns pShow numOfRows data).2.1
        = numOfRows + (min turns (c.length - cursorPos pShow.pIter) : Nat) ∧
      (mnodeRetrieveConnsLoop d c rows turns pShow numOfRows data).2.2
        = data ++ pageWrites d pShow.offset pShow.bytes rows numOfRows
            ((c.drop (cursorPos pShow.pIter)).take turns) := by
  intro turns
  induction turns with
  | zero =>
    intro pShow numOfRows data _
    simp [mnodeRetrieveConnsLoop, pageWrites]
  | succ turns ih =>
    intro pShow numOfRows data hrows
    have hlt : numOfRows < rows := by push_cast at hrows; omega
    by_cases hp : cursorPos pShow.pIter < c.length
    · have hnext := mnodeGetNextConn_lt c pShow.pIter hp
      have ih1 := ih { pShow with pIter := some { visited := cursorPos pShow.pIter + 1 } }
        (numOfRows + 1)
        (data ++ formatConn d pShow.offset pShow.bytes rows numOfRows
          (c.get ⟨cursorPos pShow.pIter, hp⟩).data)
        (by push_cast at hrows ⊢; omega)
      simp only [cursorPos_some] at ih1
      simp only [mnodeRetrieveConnsLoop, hlt, if_true, hnext]
      obtain ⟨h1, h2, h3, h4, h5⟩ := ih1
      refine ⟨h1, h2, ?_, ?_, ?_⟩
      · rw [h3]
        split <;> split <;> omega
      · rw [h4]
        have : min (turns + 1) (c.length - cursorPos pShow.pIter)
            = min turns (c.length - (cursorPos pShow.pIter + 1)) + 1 := by omega
        rw [this]
        push_cast
        omega
      · rw [h5, drop_take_succ c _ turns hp]
        simp [pageWrites]
    · have hge : c.length ≤ cursorPos pShow.pIter := Nat.le_of_not_lt hp
      have hnext := mnodeGetNextConn_ge c pShow.pIter hge
      have hdrop : c.drop (cursorPos pShow.pIter) = [] := List.drop_eq_nil_of_le hge
      have hzero : c.length - cursorPos pShow.pIter = 0 := by omega
      simp [mnodeRetrieveConnsLoop, hlt, hnext, hdrop, hzero, pageWrites, cursorPos_none]

/-- One call of `mnodeRetrieveConns` with page size `P` and the cursor at position `p`. -/
theorem mnodeRetrieveConns_spec (d : TaosDef) (c : SCacheObj) (P : Nat) (pShow : SShowObj) :
    (mnodeRetrieveConns d c pShow P).1.offset = pShow.offset ∧
    (mnodeRetrieveConns d c pShow P).1.bytes = pShow.bytes ∧
    cursorPos (mnodeRetrieveConns d c pShow P).1.pIter
      = (if P ≤ c.length - cursorPos pShow.pIter then cursorPos pShow.pIter + P else 0) ∧
    (mnodeRetrieveConns d c pShow P).2
      = (((min P (c.length - cursorPos pShow.pIter) : Nat) : Int),
          pageWrites d pShow.offset pShow.bytes P 0
            ((c.drop (cursorPos pShow.pIter)).take P)) := by
  have h := mnodeRetrieveConnsLoop_spec d c P P pShow 0 [] (by simp)
  obtain ⟨h1, h2, h3, h4, h5⟩ := h
  simp only [mnodeRetrieveConns, Int.toNat_ofNat]
  refine ⟨h1, h2, h3, ?_⟩
  rw [Prod.ext_iff]
  simp only [h4, h5]
  simp

/-- The pages `j, j + 1, ...` of an enumeration whose cursor stands at `j * P`, as long as
each of them starts before the end of the registry. -/
theorem retrievePages_spec (d : TaosDef) (c : SCacheObj) (P : Nat) :
    ∀ (k j : Nat) (pShow : SShowObj), cursorPos pShow.pIter = j * P →
      (j + k) * P < c.length + P →
      retrievePages d c P k pShow
        = (List.range' j k).map (fun i =>
            (((min P (c.length - i * P) : Nat) : Int),
              pageWrites d pShow.offset pShow.bytes P 0 ((c.drop (i * P)).take P))) := by
  intro k
  induction k with
  | zero => intro j pShow _ _; simp [retrievePages]
  | succ k ih =>
    intro j pShow hpos hbound
    obtain ⟨h1, h2, h3, h4⟩ := mnodeRetrieveConns_spec d c P pShow
    simp only [retrievePages, List.range'_succ, List.map_cons]
    rw [h4, hpos]
    congr 1
    by_cases hk : k = 0
    · subst hk; simp [retrievePages]
    · have hk1 : 1 ≤ k := Nat.one_le_iff_ne_zero.2 hk
      have hmul : (j + (k + 1)) * P = j * P + k * P + P := by ring
      have hmul2 : (j + 1 + k) * P = j * P + k * P + P := by ring
      have hP : P ≤ k * P := Nat.le_mul_of_pos_left P hk1
      have hj : (j + 1) * P = j * P + P := by ring
      have hnext : cursorPos (mnodeRetrieveConns d c pShow P).1.pIter = (j + 1) * P := by
        rw [h3, hpos, if_pos (by omega)]
        omega
      have := ih (j + 1) (mnodeRetrieveConns d c pShow P).1 hnext (by omega)
      rw [this, h1, h2]

theorem sum_page_sizes (N P : Nat) :
    ∀ (k j : Nat),
      ((List.range' j k).map (fun i => ((min P (N - i * P) : Nat) : Int))).sum
        = ((min (k * P) (N - j * P) : Nat) : Int) := by
  intro k
  induction k with
  | zero => intro j; simp
  | succ k ih =>
    intro j
    simp only [List.range'_succ, List.map_cons, List.sum_cons, ih (j + 1)]
    have hj : (j + 1) * P = j * P + P := by ring
    have hk : (k + 1) * P = k * P + P := by ring
    rw [hj, hk]
    norm_cast
    omega

theorem writtenConnIds_append (a b : List Write) :
    writtenConnIds (a ++ b) = writtenConnIds a ++ writtenConnIds b := by
  induction a with
  | nil => rfl
  | cons w ws ih =>
    simp only [List.cons_append, writtenConnIds]
    split <;> simp [ih]

theorem writtenConnIds_pageWrites (d : TaosDef) (offset bytes : Nat → Nat) (rows : Int) :
    ∀ (ms : List SCacheDataNode) (r : Int),
      writtenConnIds (pageWrites d offset bytes rows r ms) = ms.map (fun m => m.data.connId) := by
  intro ms
  induction ms with
  | nil => intro r; rfl
  | cons m ms ih =>
    intro r
    simp only [pageWrites, writtenConnIds_append, ih, List.map_cons]
    simp [formatConn, writtenConnIds]

theorem writtenConnIds_pages (d : TaosDef) (offset bytes : Nat → Nat) (c : SCacheObj)
    (P : Nat) :
    ∀ (k j : Nat),
      writtenConnIds (allWrites ((List.range' j k).map (fun i =>
          (((min P (c.length - i * P) : Nat) : Int),
            pageWrites d offset bytes P 0 ((c.drop (i * P)).take P)))))
        = ((c.drop (j * P)).take (k * P)).map (fun m => m.data.connId) := by
  intro k
  induction k with
  | zero => intro j; simp [allWrites, writtenConnIds]
  | succ k ih =>
    intro j
    simp only [List.range'_succ, List.map_cons, allWrites, writtenConnIds_append,
      writtenConnIds_pageWrites, ih (j + 1)]
    have hj : (j + 1) * P = j * P + P := by ring
    have hk : (k + 1) * P = P + k * P := by ring
    rw [hj, hk, ← List.map_append, List.take_add, List.drop_drop]

/-- C8: on a registry `c` of `N` sessions that does not change, starting from a null cursor
and with page size `P ≥ 1`, the first `⌈N / P⌉` calls of `mnodeRetrieveConns` return, call
`k` (counted from 0), `min P (N - k * P)` rows, which are the rows of the sessions at the
positions `k * P, ...` of the iteration order; the row counts add up to `N`, and the ids
written to the first column over all the calls are the ids of the registered sessions, each
session once. -/
theorem retrievePages_complete (d : TaosDef) (c : SCacheObj) (P : Nat) (pShow : SShowObj)
    (hP : 1 ≤ P) (hnull : pShow.pIter = none) :
    retrievePages d c P ((c.length + P - 1) / P) pShow
      = (List.range ((c.length + P - 1) / P)).map (fun k =>
          (((min P (c.length - k * P) : Nat) : Int),
            pageWrites d pShow.offset pShow.bytes P 0 ((c.drop (k * P)).take P))) ∧
    ((retrievePages d c P ((c.length + P - 1) / P) pShow).map Prod.fst).sum = (c.length : Int) ∧
    writtenConnIds (allWrites (retrievePages d c P ((c.length + P - 1) / P) pShow))
      = c.map (fun m => m.data.connId) := by
  have hK1 : (c.length + P - 1) / P * P ≤ c.length + P - 1 := Nat.div_mul_le_self _ _
  have hK2 : c.length + P - 1 < ((c.length + P - 1) / P + 1) * P := by
    have := Nat.lt_div_mul_add (a := c.length + P - 1) (b := P) (by omega)
    rw [Nat.add_mul]
    omega
  have hK3 : ((c.length + P - 1) / P + 1) * P = (c.length + P - 1) / P * P + P := by ring
  have hpages := retrievePages_spec d c P ((c.length + P - 1) / P) 0 pShow
    (by simp [hnull, cursorPos]) (by rw [Nat.zero_add]; omega)
  rw [← List.range_eq_range'] at hpages
  refine ⟨hpages, ?_, ?_⟩
  · rw [hpages, List.map_map]
    have := sum_page_sizes c.length P ((c.length + P - 1) / P) 0
    rw [← List.range_eq_range'] at this
    simp only [Function.comp_def]
    rw [this]
    norm_cast
    omega
  · rw [hpages, List.range_eq_range']
    rw [writtenConnIds_pages d pShow.offset pShow.bytes c P ((c.length + P - 1) / P) 0]
    simp only [Nat.zero_mul, List.drop_zero]
    rw [List.take_of_length_le (by omega)]

/-- C8 at a registry of three sessions read in pages of two rows. -/
theorem retrievePages_complete_witness :
    retrievePages demoDef threeConns 2 ((threeConns.length + 2 - 1) / 2) emptyShow
      = (List.range ((threeConns.length + 2 - 1) / 2)).map (fun k =>
          (((min 2 (threeConns.length - k * 2) : Nat) : Int),
            pageWrites demoDef emptyShow.offset emptyShow.bytes 2 0
              ((threeConns.drop (k * 2)).take 2))) ∧
    ((retrievePages demoDef threeConns 2 ((threeConns.length + 2 - 1) / 2) emptyShow).map
        Prod.fst).sum = (threeConns.length : Int) ∧
    writtenConnIds
        (allWrites (retrievePages demoDef threeConns 2 ((threeConns.length + 2 - 1) / 2)
          emptyShow))
      = threeConns.map (fun m => m.data.connId) :=
  retrievePages_complete demoDef threeConns 2 emptyShow (by decide) rfl

/-! ## C10: ids of registered sessions -/

/-- One round of the run that reuses an id: while `bob` stays registered, another client is
admitted, `bob` renews one millisecond later, and the reaper runs when the other session has
expired.  The id counter moves on, the registry is again `bob` alone. -/
theorem reachable_round (n t c : Nat) (hc : (c + 1) % 2 ^ 32 ≠ 2) (ht : t + 3001 < 2 ^ 64)
    (h : Reachable smallGlobals n t (bobState (t + 1) c)) :
    Reachable smallGlobals (n + 1) (t + 3000) (bobState (t + 3001) (nextIndex c)) := by
  have hfresh : taosHashGet [bobNode (t + 1)] (sprintf_u ((c + 1) % 2 ^ 32)) = none := by
    rw [taosHashGet_eq_none]
    intro m hm heq
    simp only [List.mem_singleton] at hm
    subst hm
    exact hc (sprintf_u_injective heq).symm
  have h1 := Reachable.create 0 "eve" 167772165 40005 h
  have hs1 : (mnodeCreateConn smallGlobals (t + 0) "eve" 167772165 40005
      (bobState (t + 1) c)).2
      = { tsMnodeConnCache :=
            [bobNode (t + 1),
             { key := sprintf_u ((c + 1) % 2 ^ 32),
               data := { user := "eve", killed := 0, port := 40005, ip := 167772165,
                         connId := (c + 1) % 2 ^ 32, stime := t },
               expiredTime := t + 3000, refCount := 0 }],
          tsConnIndex := nextIndex c, terrno := TsdbCode.TSDB_CODE_SUCCESS } := by
    have hput := put_release_fresh
      { user := "eve", killed := 0, port := 40005, ip := 167772165,
        connId := (c + 1) % 2 ^ 32, stime := t } 3 t hfresh
    simp only [mnodeCreateConn, bobState, smallGlobals, taosHashGetSize, CONN_KEEP_TIME,
      atomic_add_fetch_32, nextIndex, Nat.add_zero]
    simp only [List.length_singleton, Nat.cast_one, gt_iff_lt, lt_self_iff_false, if_false]
    rw [hput]
    rfl
  rw [hs1] at h1
  have h2 := Reachable.renew 1 2 "bob" 167772162 40001 h1
  have hs2 : (mnodeCheckConn smallGlobals (t + 0 + 1) 2 "bob" 167772162 40001
      { tsMnodeConnCache :=
          [bobNode (t + 1),
           { key := sprintf_u ((c + 1) % 2 ^ 32),
             data := { user := "eve", killed := 0, port := 40005, ip := 167772165,
                       connId := (c + 1) % 2 ^ 32, stime := t },
             expiredTime := t + 3000, refCount := 0 }],
        tsConnIndex := nextIndex c, terrno := TsdbCode.TSDB_CODE_SUCCESS }).2
      = { tsMnodeConnCache :=
            [bobNode (t + 3001),
             { key := sprintf_u ((c + 1) % 2 ^ 32),
               data := { user := "eve", killed := 0, port := 40005, ip := 167772165,
                         connId := (c + 1) % 2 ^ 32, stime := t },
               expiredTime := t + 3000, refCount := 0 }],
          tsConnIndex := nextIndex c, terrno := TsdbCode.TSDB_CODE_SUCCESS } := by
    simp [mnodeCheckConn, taosCacheUpdateExpireTimeByName, taosHashGet, taosCacheRelease,
      updateNode, bobNode, smallGlobals, CONN_KEEP_TIME]
    omega
  rw [hs2] at h2
  have h3 := Reachable.reap 2999 h2
  have hs3 : taosCacheRefresh
      [bobNode (t + 3001),
       { key := sprintf_u ((c + 1) % 2 ^ 32),
         data := { user := "eve", killed := 0, port := 40005, ip := 167772165,
                   connId := (c + 1) % 2 ^ 32, stime := t },
         expiredTime := t + 3000, refCount := 0 }] (t + 0 + 1 + 2999)
      = [bobNode (t + 3001)] := by
    simp [taosCacheRefresh, bobNode, List.filter]
  simp only [hs3] at h3
  have ht3 : t + 0 + 1 + 2999 = t + 3000 := by omega
  rw [ht3] at h3
  exact h3

theorem nextIndex_of_lt (c : Nat) (h : c + 1 < 2 ^ 32) : nextIndex c = c + 1 := by
  simp only [nextIndex, atomic_add_fetch_32]
  split <;> omega

/-- The start of the run: `alice` and `bob` are admitted into the initial state, `bob` renews
one millisecond later, and the reaper runs when the session of `alice` has expired. -/
theorem reachable_bob_alone : Reachable smallGlobals 2 3000 (bobState 3001 2) :=
  Reachable.reap 2999
    (Reachable.renew 1 2 "bob" 167772162 40001
      (Reachable.create 0 "bob" 167772162 40001
        (Reachable.create 0 "alice" 167772161 40000 (Reachable.init 0))))

/-- After `k` further rounds the id counter stands at `2 + k` and `bob` is still registered. -/
theorem reachable_rounds :
    ∀ k : Nat, k + 3 ≤ 2 ^ 32 →
      Reachable smallGlobals (2 + k) (3000 * (k + 1)) (bobState (3000 * (k + 1) + 1) (2 + k)) := by
  intro k
  induction k with
  | zero => intro _; exact reachable_bob_alone
  | succ k ih =>
    intro hk
    have h := reachable_round (2 + k) (3000 * (k + 1)) (2 + k) (by omega) (by omega)
      (ih (by omega))
    rw [nextIndex_of_lt _ (by omega)] at h
    have e1 : 2 + k + 1 = 2 + (k + 1) := by omega
    have e2 : 3000 * (k + 1) + 3000 = 3000 * (k + 1 + 1) := by omega
    have e3 : 3000 * (k + 1) + 3001 = 3000 * (k + 1 + 1) + 1 := by omega
    rw [e1, e2, e3] at h
    exact h

/-- The state of the run once the id counter has wrapped around: `bob`, whose id is 2, is
registered and the counter stands at 1. -/
theorem reachable_wrapped :
    Reachable smallGlobals 4294967296 12884901885000 (bobState 12884901885001 1) := by
  have h := reachable_rounds 4294967293 (by decide)
  have h1 := reachable_round _ _ _ (by decide) (by decide) h
  have e : nextIndex (2 + 4294967293) = 1 := by decide
  rw [e] at h1
  exact h1

/-- C10, as stated, fails: the state in which `bob` holds id 2 and the id counter stands at 1
is reachable (the counter has wrapped around after `2 ^ 32` admissions while `bob` kept
renewing); the admission made in it is not rejected and returns the id 2, the id of the
registered session of `bob`. -/
theorem admission_reuses_live_id :
    Reachable smallGlobals 4294967296 12884901885000 (bobState 12884901885001 1) ∧
    ¬ taosHashGetSize (bobState 12884901885001 1).tsMnodeConnCache
        > smallGlobals.tsMaxShellConns ∧
    bobNode 12884901885001 ∈ (bobState 12884901885001 1).tsMnodeConnCache ∧
    (bobNode 12884901885001).data.connId
      = (mnodeCreateConn smallGlobals 12884901885000 "eve" 167772165 40005
          (bobState 12884901885001 1)).1 :=
  ⟨reachable_wrapped, by decide, by decide, by decide⟩

theorem map_nodeIdent_updateNode (f : SCacheDataNode → SCacheDataNode) (key : String)
    (hf : ∀ m, nodeIdent (f m) = nodeIdent m) (c : SCacheObj) :
    (updateNode f key c).map nodeIdent = c.map nodeIdent := by
  induction c with
  | nil => rfl
  | cons a c ih => by_cases ha : a.key = key <;> simp [updateNode, ha, ih, hf]

theorem map_nodeIdent_release (c : SCacheObj) (key : String) :
    (taosCacheRelease c key).map nodeIdent = c.map nodeIdent :=
  map_nodeIdent_updateNode (fun n => { n with refCount := n.refCount - 1 }) key
    (fun _ => rfl) c

theorem map_nodeIdent_expire (c : SCacheObj) (key : String) (e : Nat) :
    (taosCacheUpdateExpireTimeByName c key e).2.map nodeIdent = c.map nodeIdent := by
  cases hget : taosHashGet c key with
  | none => simp [taosCacheUpdateExpireTimeByName, hget]
  | some n =>
    simp only [taosCacheUpdateExpireTimeByName, hget]
    exact map_nodeIdent_updateNode
      (fun m => { m with expiredTime := e, refCount := m.refCount + 1 }) key (fun _ => rfl) c

theorem map_nodeIdent_acquire (c : SCacheObj) (key : String) :
    (taosCacheAcquireByName c key).2.map nodeIdent = c.map nodeIdent := by
  cases hget : taosHashGet c key with
  | none => simp [taosCacheAcquireByName, hget]
  | some n =>
    simp only [taosCacheAcquireByName, hget]
    exact map_nodeIdent_updateNode
      (fun m => { m with refCount := m.refCount + 1 }) key (fun _ => rfl) c

theorem map_nodeIdent_killed (c : SCacheObj) (key : String) :
    (updateNode (fun n => { n with data := { n.data with killed := 1 } }) key c).map nodeIdent
      = c.map nodeIdent :=
  map_nodeIdent_updateNode (fun n => { n with data := { n.data with killed := 1 } }) key
    (fun _ => rfl) c

theorem mnodeCheckConn_ident (g : Globals) (now connId : Nat) (user : String) (ip port : Nat)
    (s : MnodeState) :
    (mnodeCheckConn g now connId user ip port s).2.tsMnodeConnCache.map nodeIdent
        = s.tsMnodeConnCache.map nodeIdent ∧
      (mnodeCheckConn g now connId user ip port s).2.tsConnIndex = s.tsConnIndex := by
  have h := map_nodeIdent_expire s.tsMnodeConnCache (sprintf_u connId)
    ((CONN_KEEP_TIME g * 1000 + now) % 2 ^ 64)
  simp only [mnodeCheckConn]
  generalize taosCacheUpdateExpireTimeByName s.tsMnodeConnCache (sprintf_u connId)
    ((CONN_KEEP_TIME g * 1000 + now) % 2 ^ 64) = q at h
  obtain ⟨q1, q2⟩ := q
  cases q1 with
  | none => simp
  | some pConn =>
    simp only at h
    simp only []
    split <;> simp [map_nodeIdent_release, h]

theorem mnodeProcessKillConnectionMsg_ident (user queryId : String) (s : MnodeState) :
    (mnodeProcessKillConnectionMsg user queryId s).2.tsMnodeConnCache.map nodeIdent
        = s.tsMnodeConnCache.map nodeIdent ∧
      (mnodeProcessKillConnectionMsg user queryId s).2.tsConnIndex = s.tsConnIndex := by
  by_cases hu : user = "root"
  · have h := map_nodeIdent_acquire s.tsMnodeConnCache queryId
    simp only [mnodeProcessKillConnectionMsg, hu]
    generalize taosCacheAcquireByName s.tsMnodeConnCache queryId = q at h
    obtain ⟨q1, q2⟩ := q
    cases q1 with
    | none => simp
    | some pConn =>
      simp only at h
      simp [map_nodeIdent_release, map_nodeIdent_killed, h]
  · simp [mnodeProcessKillConnectionMsg, hu]

/-- What an admission that is not rejected does to the keys and ids of the registry, when
every key is the text of the id stored under it: either they are the same as before (the key
was present, with the same id), or the new key and id are added at the end. -/
theorem mnodeCreateConn_ident (g : Globals) (now : Nat) (user : String) (ip port : Nat)
    (s : MnodeState)
    (hkey : ∀ m ∈ s.tsMnodeConnCache, m.key = sprintf_u m.data.connId)
    (hnot : ¬ taosHashGetSize s.tsMnodeConnCache > g.tsMaxShellConns) :
    (mnodeCreateConn g now user ip port s).1 = atomic_add_fetch_32 s.tsConnIndex 1 ∧
    (mnodeCreateConn g now user ip port s).2.tsConnIndex = nextIndex s.tsConnIndex ∧
    (((mnodeCreateConn g now user ip port s).2.tsMnodeConnCache.map nodeIdent
          = s.tsMnodeConnCache.map nodeIdent ∧
        ∃ m ∈ s.tsMnodeConnCache, m.data.connId = atomic_add_fetch_32 s.tsConnIndex 1) ∨
      ((∀ m ∈ s.tsMnodeConnCache, m.key ≠ sprintf_u (atomic_add_fetch_32 s.tsConnIndex 1)) ∧
        (mnodeCreateConn g now user ip port s).2.tsMnodeConnCache.map nodeIdent
          = s.tsMnodeConnCache.map nodeIdent
            ++ [(sprintf_u (atomic_add_fetch_32 s.tsConnIndex 1),
                 atomic_add_fetch_32 s.tsConnIndex 1)])) := by
  refine ⟨by simp [mnodeCreateConn, hnot], by simp [mnodeCreateConn, hnot, nextIndex], ?_⟩
  simp only [mnodeCreateConn, hnot, if_false]
  cases hget : taosHashGet s.tsMnodeConnCache
      (sprintf_u (atomic_add_fetch_32 s.tsConnIndex 1)) with
  | none =>
    right
    refine ⟨taosHashGet_eq_none.1 hget, ?_⟩
    rw [put_release_fresh _ _ _ hget]
    simp [nodeIdent]
  | some n =>
    left
    obtain ⟨pre, post, hc, hpre, hn⟩ := exists_split hget
    have hmem : n ∈ s.tsMnodeConnCache := by rw [hc]; simp
    have hid : n.data.connId = atomic_add_fetch_32 s.tsConnIndex 1 :=
      sprintf_u_injective ((hkey n hmem).symm.trans hn)
    refine ⟨?_, n, hmem, hid⟩
    rw [hc, put_release_present _ _ _ hpre hn]
    simp [nodeIdent, hn, hid]

theorem idInv_create (g : Globals) (n now : Nat) (user : String) (ip port : Nat)
    (s : MnodeState) (hinv : IdInv n s) :
    IdInv (n + 1) (mnodeCreateConn g now user ip port s).2 := by
  obtain ⟨h1, h2, h3⟩ := hinv
  by_cases hrej : taosHashGetSize s.tsMnodeConnCache > g.tsMaxShellConns
  · simp only [mnodeCreateConn, hrej, if_true]
    refine ⟨h1, h2, fun hn => ?_⟩
    obtain ⟨h4, h5⟩ := h3 (by omega)
    exact ⟨by simp only []; omega, h5⟩
  · have hkey : ∀ m ∈ s.tsMnodeConnCache, m.key = sprintf_u m.data.connId := by
      intro m hm
      exact h1 (nodeIdent m) (List.mem_map_of_mem _ hm)
    obtain ⟨_, hidx, hcases⟩ := mnodeCreateConn_ident g now user ip port s hkey hrej
    simp only [IdInv, hidx]
    rcases hcases with ⟨hsame, _⟩ | ⟨hfree, happ⟩
    · rw [hsame]
      refine ⟨h1, h2, fun hn => ?_⟩
      obtain ⟨h4, h5⟩ := h3 (by omega)
      rw [nextIndex_of_lt _ (by omega)]
      refine ⟨by omega, fun p hp => ?_⟩
      have := h5 p hp
      omega
    · rw [happ]
      refine ⟨?_, ?_, fun hn => ?_⟩
      · intro p hp
        rcases List.mem_append.1 hp with hp1 | hp1
        · exact h1 p hp1
        · simp only [List.mem_singleton] at hp1
          rw [hp1]
      · rw [List.map_append, List.nodup_append]
        refine ⟨h2, by simp, ?_⟩
        intro k hk1 hk2
        simp only [List.map_cons, List.map_nil, List.mem_singleton] at hk2
        simp only [List.mem_map] at hk1
        obtain ⟨p, ⟨m, hm, hmp⟩, hpk⟩ := hk1
        apply hfree m hm
        rw [← hk2, ← hpk, ← hmp]
        rfl
      · obtain ⟨h4, h5⟩ := h3 (by omega)
        rw [nextIndex_of_lt _ (by omega)]
        refine ⟨by omega, fun p hp => ?_⟩
        rcases List.mem_append.1 hp with hp1 | hp1
        · have := h5 p hp1
          omega
        · simp only [List.mem_singleton] at hp1
          rw [hp1]
          unfold atomic_add_fetch_32
          omega

theorem idInv_reap (n now : Nat) (s : MnodeState) (hinv : IdInv n s) :
    IdInv n { s with tsMnodeConnCache := taosCacheRefresh s.tsMnodeConnCache now } := by
  obtain ⟨h1, h2, h3⟩ := hinv
  have hsub : List.Sublist ((taosCacheRefresh s.tsMnodeConnCache now).map nodeIdent)
      (s.tsMnodeConnCache.map nodeIdent) :=
    List.Sublist.map _ (List.filter_sublist _)
  refine ⟨fun p hp => h1 p (hsub.subset hp), List.Nodup.sublist (hsub.map _) h2, fun hn => ?_⟩
  obtain ⟨h4, h5⟩ := h3 hn
  exact ⟨h4, fun p hp => h5 p (hsub.subset hp)⟩

/-- Every reachable state satisfies the invariant. -/
theorem idInv_reachable (g : Globals) (n t : Nat) (s : MnodeState)
    (h : Reachable g n t s) : IdInv n s := by
  induction h with
  | init t => simp [IdInv, IdInvL]
  | create dt user ip port _ ih => exact idInv_create g _ _ user ip port _ ih
  | renew dt connId user ip port _ ih =>
    obtain ⟨h1, h2⟩ := mnodeCheckConn_ident g _ connId user ip port _
    unfold IdInv at ih ⊢
    rw [h1, h2]
    exact ih
  | kill dt user queryId _ ih =>
    obtain ⟨h1, h2⟩ := mnodeProcessKillConnectionMsg_ident user queryId _
    unfold IdInv at ih ⊢
    rw [h1, h2]
    exact ih
  | reap dt _ ih => exact idInv_reap _ _ _ ih

/-- C10, amended: in every state reachable from the initial state by admissions, renewals,
kill requests and runs of the reaper, no two registered sessions share an id; and as long as
fewer than `2 ^ 32` calls of `mnodeCreateConn` have been made, an admission that is not
rejected returns an id that differs from the id of every session registered at the call. -/
theorem reachable_ids_unique (g : Globals) (n t : Nat) (s : MnodeState)
    (h : Reachable g n t s) :
    (s.tsMnodeConnCache.map (fun m => m.data.connId)).Nodup ∧
    (n < 2 ^ 32 → ∀ (now : Nat) (user : String) (ip port : Nat),
      ¬ taosHashGetSize s.tsMnodeConnCache > g.tsMaxShellConns →
      ∀ m ∈ s.tsMnodeConnCache,
        m.data.connId ≠ (mnodeCreateConn g now user ip port s).1) := by
  obtain ⟨h1, h2, h3⟩ := idInv_reachable g n t s h
  constructor
  · have hmap : (s.tsMnodeConnCache.map nodeIdent).map Prod.fst
        = (s.tsMnodeConnCache.map (fun m => m.data.connId)).map sprintf_u := by
      rw [List.map_map, List.map_map]
      apply List.map_congr_left
      intro m hm
      exact h1 (nodeIdent m) (List.mem_map_of_mem _ hm)
    rw [hmap] at h2
    exact List.Nodup.of_map _ h2
  · intro hn now user ip port hrej m hm
    obtain ⟨h4, h5⟩ := h3 hn
    have h6 := h5 (nodeIdent m) (List.mem_map_of_mem _ hm)
    simp only [nodeIdent] at h6
    simp only [mnodeCreateConn, hrej, if_false, atomic_add_fetch_32]
    omega

/-- The amended C10 at the state in which `alice` has just been admitted. -/
theorem reachable_ids_unique_witness :
    (aliceState.tsMnodeConnCache.map (fun m => m.data.connId)).Nodup ∧
    (1 < 2 ^ 32 → ∀ (now : Nat) (user : String) (ip port : Nat),
      ¬ taosHashGetSize aliceState.tsMnodeConnCache > demoGlobals.tsMaxShellConns →
      ∀ m ∈ aliceState.tsMnodeConnCache,
        m.data.connId ≠ (mnodeCreateConn demoGlobals now user ip port aliceState).1) :=
  reachable_ids_unique demoGlobals 1 1000 aliceState
    (Reachable.create 0 "alice" 167772161 40000 (Reachable.init 1000))

/-! ## C11: the byte ranges written by `mnodeRetrieveConns` -/

/-- The offsets and the row size that `mnodeGetConnsMeta` derives from the widths. -/
theorem mnodeGetConnsMeta_layout (d : TaosDef) (c : SCacheObj) (pMeta : STableMetaMsg)
    (pShow : SShowObj) :
    (mnodeGetConnsMeta d c pMeta pShow).2.2.offset 0 = 0 ∧
    (mnodeGetConnsMeta d c pMeta pShow).2.2.offset 1
      = (mnodeGetConnsMeta d c pMeta pShow).2.2.bytes 0 ∧
    (mnodeGetConnsMeta d c pMeta pShow).2.2.offset 2
      = (mnodeGetConnsMeta d c pMeta pShow).2.2.bytes 0
        + (mnodeGetConnsMeta d c pMeta pShow).2.2.bytes 1 ∧
    (mnodeGetConnsMeta d c pMeta pShow).2.2.offset 3
      = (mnodeGetConnsMeta d c pMeta pShow).2.2.bytes 0
        + (mnodeGetConnsMeta d c pMeta pShow).2.2.bytes 1
        + (mnodeGetConnsMeta d c pMeta pShow).2.2.bytes 2 ∧
    (mnodeGetConnsMeta d c pMeta pShow).2.2.rowSize
      = (mnodeGetConnsMeta d c pMeta pShow).2.2.bytes 0
        + (mnodeGetConnsMeta d c pMeta pShow).2.2.bytes 1
        + (mnodeGetConnsMeta d c pMeta pShow).2.2.bytes 2
        + (mnodeGetConnsMeta d c pMeta pShow).2.2.bytes 3 := by
  simp [mnodeGetConnsMeta, setSchema, offsetLoop, Function.update, List.range']

/-- A column ends where a later column starts, or before. -/
theorem offset_add_bytes_le_offset (d : TaosDef) (c : SCacheObj) (pMeta : STableMetaMsg)
    (pShow : SShowObj) (col col2 : Nat) (h : col < col2) (h2 : col2 < 4) :
    (mnodeGetConnsMeta d c pMeta pShow).2.2.offset col
        + (mnodeGetConnsMeta d c pMeta pShow).2.2.bytes col
      ≤ (mnodeGetConnsMeta d c pMeta pShow).2.2.offset col2 := by
  obtain ⟨h0, h1, h3, h4, _⟩ := mnodeGetConnsMeta_layout d c pMeta pShow
  interval_cases col2 <;> interval_cases col <;> omega

/-- Every column ends within the row. -/
theorem offset_add_bytes_le_rowSize (d : TaosDef) (c : SCacheObj) (pMeta : STableMetaMsg)
    (pShow : SShowObj) (col : Nat) (h : col < 4) :
    (mnodeGetConnsMeta d c pMeta pShow).2.2.offset col
        + (mnodeGetConnsMeta d c pMeta pShow).2.2.bytes col
      ≤ (mnodeGetConnsMeta d c pMeta pShow).2.2.rowSize := by
  obtain ⟨h0, h1, h3, h4, h5⟩ := mnodeGetConnsMeta_layout d c pMeta pShow
  interval_cases col <;> omega

/-- A range ends where the block of its column ends, or before. -/
theorem writeEnd_le_block (pShow : SShowObj) (rows col r : Nat) (hr : r < rows) :
    writeEnd pShow rows col r ≤ (pShow.offset col + pShow.bytes col) * rows := by
  have h1 : pShow.bytes col * (r + 1) ≤ pShow.bytes col * rows :=
    Nat.mul_le_mul_left _ hr
  have h2 : (pShow.offset col + pShow.bytes col) * rows
      = pShow.offset col * rows + pShow.bytes col * rows := Nat.add_mul _ _ _
  unfold writeEnd
  omega

/-- Ranges of an earlier and of a later column do not meet. -/
theorem writeEnd_le_writeStart_of_col_lt (d : TaosDef) (c : SCacheObj) (pMeta : STableMetaMsg)
    (pShow : SShowObj) (rows col r col2 r2 : Nat) (h : col < col2) (h2 : col2 < 4)
    (hr : r < rows) :
    writeEnd (mnodeGetConnsMeta d c pMeta pShow).2.2 rows col r
      ≤ writeStart (mnodeGetConnsMeta d c pMeta pShow).2.2 rows col2 r2 := by
  have h1 := writeEnd_le_block (mnodeGetConnsMeta d c pMeta pShow).2.2 rows col r hr
  have h3 := Nat.mul_le_mul_right rows (offset_add_bytes_le_offset d c pMeta pShow col col2 h h2)
  unfold writeStart
  omega

/-- Ranges of an earlier and of a later row of one column do not meet. -/
theorem writeEnd_le_writeStart_of_row_lt (pShow : SShowObj) (rows col r r2 : Nat)
    (h : r < r2) : writeEnd pShow rows col r ≤ writeStart pShow rows col r2 := by
  have h1 : pShow.bytes col * (r + 1) ≤ pShow.bytes col * r2 := Nat.mul_le_mul_left _ h
  unfold writeEnd writeStart
  omega

/-- The stores of a page start at `writeStart` of one of the four columns and of a row
numbered from `r0` on. -/
theorem mem_pageWrites (d : TaosDef) (pShow : SShowObj) (rows : Nat) :
    ∀ (ms : List SCacheDataNode) (r0 : Nat) (w : Write),
      w ∈ pageWrites d pShow.offset pShow.bytes rows r0 ms →
      ∃ col r, col < 4 ∧ r0 ≤ r ∧ r < r0 + ms.length ∧
        w.pos = (writeStart pShow rows col r : Int) := by
  intro ms
  induction ms with
  | nil => intro r0 w hw; simp [pageWrites] at hw
  | cons m ms ih =>
    intro r0 w hw
    simp only [pageWrites, List.mem_append] at hw
    rcases hw with hw | hw
    · simp only [formatConn, List.mem_cons, List.mem_singleton, List.not_mem_nil,
        or_false] at hw
      rcases hw with hw | hw | hw | hw
      · exact ⟨0, r0, by omega, le_refl _, by simp, by rw [hw]; simp [writeStart]⟩
      · exact ⟨1, r0, by omega, le_refl _, by simp, by rw [hw]; simp [writeStart]⟩
      · exact ⟨2, r0, by omega, le_refl _, by simp, by rw [hw]; simp [writeStart]⟩
      · exact ⟨3, r0, by omega, le_refl _, by simp, by rw [hw]; simp [writeStart]⟩
    · have hw2 : w ∈ pageWrites d pShow.offset pShow.bytes rows ((r0 + 1 : Nat) : Int) ms := by
        simpa using hw
      obtain ⟨col, r, h1, h2, h3, h4⟩ := ih (r0 + 1) w hw2
      exact ⟨col, r, h1, by omega, by simp only [List.length_cons]; omega, h4⟩

/-- The widths that `mnodeGetConnsMeta` sets. -/
theorem mnodeGetConnsMeta_bytes (d : TaosDef) (c : SCacheObj) (pMeta : STableMetaMsg)
    (pShow : SShowObj) :
    (mnodeGetConnsMeta d c pMeta pShow).2.2.bytes 0 = 4 ∧
    (mnodeGetConnsMeta d c pMeta pShow).2.2.bytes 1
      = d.TSDB_USER_LEN + d.VARSTR_HEADER_SIZE ∧
    (mnodeGetConnsMeta d c pMeta pShow).2.2.bytes 2
      = d.TSDB_IPv4ADDR_LEN + 6 + d.VARSTR_HEADER_SIZE ∧
    (mnodeGetConnsMeta d c pMeta pShow).2.2.bytes 3 = 8 := by
  simp [mnodeGetConnsMeta, setSchema, offsetLoop, Function.update, List.range']

/-- What is stored in a column takes the width declared for the column. -/
theorem cellBytes_columnCell (d : TaosDef) (c : SCacheObj) (pMeta : STableMetaMsg)
    (pShow : SShowObj) (col : Nat) (hcol : col < 4) (pConnObj : SConnObj) :
    cellBytes d (columnCell d col pConnObj)
      = (mnodeGetConnsMeta d c pMeta pShow).2.2.bytes col := by
  obtain ⟨h0, h1, h2, h3⟩ := mnodeGetConnsMeta_bytes d c pMeta pShow
  interval_cases col
  · rw [h0]; rfl
  · rw [h1]; simp only [columnCell, cellBytes]; omega
  · rw [h2]; simp only [columnCell, cellBytes]; omega
  · rw [h3]; rfl

/-- A range is as long as the width of its column. -/
theorem writeEnd_eq (pShow : SShowObj) (rows col r : Nat) :
    writeEnd pShow rows col r = writeStart pShow rows col r + pShow.bytes col := by
  unfold writeEnd writeStart
  rw [Nat.mul_succ]
  omega

theorem length_formatConn (d : TaosDef) (offset bytes : Nat → Nat) (rows numOfRows : Int)
    (pConnObj : SConnObj) :
    (formatConn d offset bytes rows numOfRows pConnObj).length = 4 := rfl

/-- A page makes four stores for each session. -/
theorem length_pageWrites (d : TaosDef) (offset bytes : Nat → Nat) (rows : Int) :
    ∀ (ms : List SCacheDataNode) (r0 : Int),
      (pageWrites d offset bytes rows r0 ms).length = 4 * ms.length := by
  intro ms
  induction ms with
  | nil => intro r0; rfl
  | cons m ms ih =>
    intro r0
    simp only [pageWrites, List.length_append, length_formatConn, ih, List.length_cons]
    omega

/-- The store number `4 * r + col` of a page is the store of column `col` of the `r`-th
session of the page, at `writeStart` of that column and of that row. -/
theorem getElem?_pageWrites (d : TaosDef) (pShow : SShowObj) (rows : Nat) :
    ∀ (ms : List SCacheDataNode) (r0 r col : Nat) (m : SCacheDataNode),
      ms[r]? = some m → col < 4 →
      (pageWrites d pShow.offset pShow.bytes rows (r0 : Int) ms)[4 * r + col]?
        = some { pos := (writeStart pShow rows col (r0 + r) : Int),
                 cell := columnCell d col m.data } := by
  intro ms
  induction ms with
  | nil => intro r0 r col m hm _; simp at hm
  | cons m0 ms ih =>
    intro r0 r col m hm hcol
    simp only [pageWrites]
    cases r with
    | zero =>
      have hm0 : m0 = m := by simpa using hm
      subst hm0
      rw [List.getElem?_append_left (by rw [length_formatConn]; omega)]
      interval_cases col <;> simp [formatConn, writeStart, columnCell]
    | succ r =>
      have hm1 : ms[r]? = some m := by simpa using hm
      rw [List.getElem?_append_right (by rw [length_formatConn]; omega), length_formatConn]
      have hidx : 4 * (r + 1) + col - 4 = 4 * r + col := by omega
      have hcast : ((r0 : Int) + 1) = ((r0 + 1 : Nat) : Int) := by push_cast; rfl
      have hrow : r0 + 1 + r = r0 + (r + 1) := by omega
      rw [hidx, hcast, ih (r0 + 1) r col m hm1 hcol, hrow]

/-- C11: let `mnodeRetrieveConns` be called with `rows` on a show object whose offsets and
widths were set by `mnodeGetConnsMeta`.  The call produces `min rows (N - p)` rows and makes
four stores for each; the store for column `col < 4` of the `r`-th produced row (store number
`4 * r + col`) is made at `offset[col] * rows + bytes[col] * r` and holds the value of that
column for the `r`-th session met by the cursor.  What is stored there ends at
`offset[col] * rows + bytes[col] * (r + 1)`; for all `col < 4` and `r < rows` this range lies
inside the caller's buffer of `rowSize * rows` bytes, and the ranges of two different pairs of
column and row do not overlap. -/
theorem mnodeRetrieveConns_ranges (d : TaosDef) (c c2 : SCacheObj) (pMeta : STableMetaMsg)
    (pShow : SShowObj) (it : Option SHashMutableIterator) (rows col r col2 r2 : Nat)
    (pConnObj : SConnObj)
    (hcol : col < 4) (hr : r < rows) (hcol2 : col2 < 4) (hr2 : r2 < rows) :
    (mnodeRetrieveConns d c2
        { (mnodeGetConnsMeta d c pMeta pShow).2.2 with pIter := it } rows).2.1
      = ((min rows (c2.length - cursorPos it) : Nat) : Int) ∧
    (mnodeRetrieveConns d c2
        { (mnodeGetConnsMeta d c pMeta pShow).2.2 with pIter := it } rows).2.2.length
      = 4 * min rows (c2.length - cursorPos it) ∧
    (∀ m : SCacheDataNode, (c2.drop (cursorPos it))[r]? = some m →
      (mnodeRetrieveConns d c2
          { (mnodeGetConnsMeta d c pMeta pShow).2.2 with pIter := it } rows).2.2[4 * r + col]?
        = some { pos := (writeStart (mnodeGetConnsMeta d c pMeta pShow).2.2 rows col r : Int),
                 cell := columnCell d col m.data }) ∧
    (∀ w ∈ (mnodeRetrieveConns d c2
          { (mnodeGetConnsMeta d c pMeta pShow).2.2 with pIter := it } rows).2.2,
      ∃ wcol wr, wcol < 4 ∧ wr < rows ∧
        w.pos = (writeStart (mnodeGetConnsMeta d c pMeta pShow).2.2 rows wcol wr : Int)) ∧
    writeStart (mnodeGetConnsMeta d c pMeta pShow).2.2 rows col r
        + cellBytes d (columnCell d col pConnObj)
      = writeEnd (mnodeGetConnsMeta d c pMeta pShow).2.2 rows col r ∧
    writeEnd (mnodeGetConnsMeta d c pMeta pShow).2.2 rows col r
      ≤ bufferSize (mnodeGetConnsMeta d c pMeta pShow).2.2 rows ∧
    ((col, r) ≠ (col2, r2) →
      writeEnd (mnodeGetConnsMeta d c pMeta pShow).2.2 rows col r
          ≤ writeStart (mnodeGetConnsMeta d c pMeta pShow).2.2 rows col2 r2 ∨
        writeEnd (mnodeGetConnsMeta d c pMeta pShow).2.2 rows col2 r2
          ≤ writeStart (mnodeGetConnsMeta d c pMeta pShow).2.2 rows col r) := by
  obtain ⟨_, _, _, h4⟩ := mnodeRetrieveConns_spec d c2 rows
    { (mnodeGetConnsMeta d c pMeta pShow).2.2 with pIter := it }
  have hlen := List.length_take_le rows (List.drop (cursorPos it) c2)
  refine ⟨?_, ?_, ?_, ?_, ?_, ?_, ?_⟩
  · rw [h4]
  · rw [h4]
    simp only [length_pageWrites, List.length_take, List.length_drop]
  · intro m hm
    rw [h4]
    have hm2 : (List.take rows (List.drop (cursorPos it) c2))[r]? = some m := by
      rw [List.getElem?_take, if_pos hr]
      exact hm
    have h := getElem?_pageWrites d (mnodeGetConnsMeta d c pMeta pShow).2.2 rows _ 0 r col m
      hm2 hcol
    simp only [Nat.cast_zero, Nat.zero_add] at h
    exact h
  · intro w hw
    rw [h4] at hw
    have hw2 := mem_pageWrites d
      { (mnodeGetConnsMeta d c pMeta pShow).2.2 with pIter := it } rows _ 0 w
      (by simpa using hw)
    obtain ⟨wcol, wr, h1, _, h3, h5⟩ := hw2
    exact ⟨wcol, wr, h1, by omega, h5⟩
  · rw [writeEnd_eq, cellBytes_columnCell d c pMeta pShow col hcol pConnObj]
  · have h1 := writeEnd_le_block (mnodeGetConnsMeta d c pMeta pShow).2.2 rows col r hr
    have h2 := Nat.mul_le_mul_right rows (offset_add_bytes_le_rowSize d c pMeta pShow col hcol)
    unfold bufferSize
    omega
  · intro hne
    rcases Nat.lt_trichotomy col col2 with h | h | h
    · exact Or.inl (writeEnd_le_writeStart_of_col_lt d c pMeta pShow rows col r col2 r2 h
        hcol2 hr)
    · subst h
      have hrr : r ≠ r2 := fun e => hne (by rw [e])
      rcases Nat.lt_or_gt_of_ne hrr with h | h
      · exact Or.inl (writeEnd_le_writeStart_of_row_lt _ rows col r r2 h)
      · exact Or.inr (writeEnd_le_writeStart_of_row_lt _ rows col r2 r h)
    · exact Or.inr (writeEnd_le_writeStart_of_col_lt d c pMeta pShow rows col2 r2 col r h
        hcol hr2)

/-- C11 at a page of two rows over a registry of three sessions: the user column of row 1
against the id column of row 0. -/
theorem mnodeRetrieveConns_ranges_witness :
    (mnodeRetrieveConns demoDef threeConns
        { (mnodeGetConnsMeta demoDef threeConns emptyMeta emptyShow).2.2 with
          pIter := none } 2).2.1
      = ((min 2 (threeConns.length - cursorPos none) : Nat) : Int) ∧
    (mnodeRetrieveConns demoDef threeConns
        { (mnodeGetConnsMeta demoDef threeConns emptyMeta emptyShow).2.2 with
          pIter := none } 2).2.2.length
      = 4 * min 2 (threeConns.length - cursorPos none) ∧
    (∀ m : SCacheDataNode, (threeConns.drop (cursorPos none))[1]? = some m →
      (mnodeRetrieveConns demoDef threeConns
          { (mnodeGetConnsMeta demoDef threeConns emptyMeta emptyShow).2.2 with
            pIter := none } 2).2.2[4 * 1 + 1]?
        = some { pos := (writeStart
                   (mnodeGetConnsMeta demoDef threeConns emptyMeta emptyShow).2.2 2 1 1 : Int),
                 cell := columnCell demoDef 1 m.data }) ∧
    (∀ w ∈ (mnodeRetrieveConns demoDef threeConns
          { (mnodeGetConnsMeta demoDef threeConns emptyMeta emptyShow).2.2 with
            pIter := none } 2).2.2,
      ∃ wcol wr, wcol < 4 ∧ wr < 2 ∧
        w.pos = (writeStart (mnodeGetConnsMeta demoDef threeConns emptyMeta emptyShow).2.2
          2 wcol wr : Int)) ∧
    writeStart (mnodeGetConnsMeta demoDef threeConns emptyMeta emptyShow).2.2 2 1 1
        + cellBytes demoDef (columnCell demoDef 1 aliceConn)
      = writeEnd (mnodeGetConnsMeta demoDef threeConns emptyMeta emptyShow).2.2 2 1 1 ∧
    writeEnd (mnodeGetConnsMeta demoDef threeConns emptyMeta emptyShow).2.2 2 1 1
      ≤ bufferSize (mnodeGetConnsMeta demoDef threeConns emptyMeta emptyShow).2.2 2 ∧
    (((1 : Nat), (1 : Nat)) ≠ (0, 0) →
      writeEnd (mnodeGetConnsMeta demoDef threeConns emptyMeta emptyShow).2.2 2 1 1
          ≤ writeStart (mnodeGetConnsMeta demoDef threeConns emptyMeta emptyShow).2.2 2 0 0 ∨
        writeEnd (mnodeGetConnsMeta demoDef threeConns emptyMeta emptyShow).2.2 2 0 0
          ≤ writeStart (mnodeGetConnsMeta demoDef threeConns emptyMeta emptyShow).2.2 2 1 1) :=
  mnodeRetrieveConns_ranges demoDef threeConns threeConns emptyMeta emptyShow none 2 1 1 0 0
    aliceConn (by decide) (by decide) (by decide) (by decide)

/-! ## C12: the key buffer -/

/-- Every character that `Nat.toDigitsCore` puts out in base ten is a decimal digit. -/
theorem digitValue_toDigitsCore_le (fuel : Nat) :
    ∀ (n : Nat) (ds : List Char), (∀ ch ∈ ds, digitValue ch ≤ 9) →
      ∀ ch ∈ Nat.toDigitsCore 10 fuel n ds, digitValue ch ≤ 9 := by
  induction fuel with
  | zero => intro n ds hds ch hch; exact hds ch (by simpa [Nat.toDigitsCore] using hch)
  | succ fuel ih =>
    intro n ds hds ch hch
    have hd : digitValue (Nat.digitChar (n % 10)) ≤ 9 := by
      rw [digitValue_digitChar _ (Nat.mod_lt _ (by decide))]
      omega
    have hcons : ∀ x ∈ Nat.digitChar (n % 10) :: ds, digitValue x ≤ 9 := by
      intro x hx
      rcases List.mem_cons.1 hx with h | h
      · rw [h]; exact hd
      · exact hds x h
    simp only [Nat.toDigitsCore] at hch
    by_cases h0 : n / 10 = 0
    · simp only [h0, if_true] at hch
      exact hcons ch hch
    · simp only [h0, if_false] at hch
      exact ih (n / 10) _ hcons ch hch

/-- A list of `k` decimal digits read after `acc` writes a number below
`(acc + 1) * 10 ^ k`. -/
theorem decodeDigits_lt :
    ∀ (cs : List Char) (acc : Nat), (∀ ch ∈ cs, digitValue ch ≤ 9) →
      decodeDigits acc cs < (acc + 1) * 10 ^ cs.length := by
  intro cs
  induction cs with
  | nil => intro acc _; simp [decodeDigits]
  | cons x cs ih =>
    intro acc h
    have hx : digitValue x ≤ 9 := h x (List.mem_cons_self _ _)
    have h1 := ih (acc * 10 + digitValue x) (fun ch hch => h ch (List.mem_cons_of_mem _ hch))
    have h2 : (acc * 10 + digitValue x + 1) * 10 ^ cs.length
        ≤ ((acc + 1) * 10) * 10 ^ cs.length := Nat.mul_le_mul_right _ (by omega)
    have h3 : (acc + 1) * 10 ^ (x :: cs).length = ((acc + 1) * 10) * 10 ^ cs.length := by
      rw [List.length_cons, pow_succ]
      ring
    have h4 : decodeDigits acc (x :: cs) = decodeDigits (acc * 10 + digitValue x) cs := rfl
    rw [h3, h4]
    omega

/-- A number is below ten to the number of its decimal digits. -/
theorem lt_pow_length_sprintf_u (n : Nat) : n < 10 ^ (sprintf_u n).length := by
  have hdig : ∀ ch ∈ (sprintf_u n).data, digitValue ch ≤ 9 := by
    simp only [sprintf_u, Nat.repr, Nat.toDigits, List.asString]
    exact digitValue_toDigitsCore_le (n + 1) n [] (by simp)
  have h := decodeDigits_lt (sprintf_u n).data 0 hdig
  rw [decodeDigits_sprintf_u, Nat.zero_add, Nat.one_mul] at h
  exact h

/-- The key of an id fits the buffer exactly when the id is below one thousand million. -/
theorem sprintfBytes_le_iff (n : Nat) : sprintfBytes n ≤ KEY_SIZE ↔ n < 10 ^ 9 := by
  unfold sprintfBytes KEY_SIZE
  constructor
  · intro h
    have h1 := lt_pow_length_sprintf_u n
    have h2 : 10 ^ (sprintf_u n).length ≤ 10 ^ 9 :=
      Nat.pow_le_pow_right (by decide) (by omega)
    omega
  · intro h
    have h1 := Nat.repr_length n 9 (by decide) h
    unfold sprintf_u
    omega

/-- C12: the claim fails on the code.  For the id 1000000000, and for the largest id
4294967295, `sprintf(key, "%u", connId)` stores 11 bytes, ten digits and the NUL byte, into
the buffer `char key[10]`; a 32-bit id fits the buffer exactly when it is below `10 ^ 9`. -/
theorem sprintf_key_exceeds_buffer :
    sprintf_u 1000000000 = "1000000000" ∧
    sprintfBytes 1000000000 = 11 ∧
    sprintfBytes 4294967295 = 11 ∧
    KEY_SIZE = 10 ∧
    (1000000000 : Nat) < 2 ^ 32 ∧
    (∀ connId : Nat, sprintfBytes connId ≤ KEY_SIZE ↔ connId < 10 ^ 9) :=
  ⟨by decide, by decide, by decide, rfl, by decide, sprintfBytes_le_iff⟩

end MnodeProfile
